import Mathlib

/-!
Verification development for the frameserve HTTP server (src/main.go).

Go strings are modelled over `List Char` (all operations the program
performs are ASCII-safe), with `String` wrappers keeping the Go names.
Filesystem and network effects are modelled by explicit state parameters
(a `World` record of directory listings, stat results and embedded files).
Paths follow Go's `path/filepath` on a Unix separator ('/').
-/

namespace Frameserve

/-- Whitespace per Go `unicode.IsSpace` (the Unicode White_Space set). -/
def goIsSpace (c : Char) : Bool :=
  decide (c = ' ' ∨ c = '\t' ∨ c = '\n' ∨ c.val = 11 ∨ c.val = 12 ∨ c = '\r' ∨
    c.val = 0x85 ∨ c.val = 0xA0 ∨ c.val = 0x1680 ∨
    (0x2000 ≤ c.val ∧ c.val ≤ 0x200A) ∨ c.val = 0x2028 ∨ c.val = 0x2029 ∨
    c.val = 0x202F ∨ c.val = 0x205F ∨ c.val = 0x3000)

/-- `strings.TrimSpace` on character lists. -/
def trimSpaceL (s : List Char) : List Char :=
  ((s.dropWhile goIsSpace).reverse.dropWhile goIsSpace).reverse

/-- `strings.TrimSpace`. -/
def goTrimSpace (s : String) : String := ⟨trimSpaceL s.data⟩

/-- The ASCII fragment of `strings.ToLower` (`Char.toLower` lowercases only
A-Z; Go's full Unicode case table is not reproduced here).  It is used below
only for the extension allowlist, where the two maps differ at the single
code point U+0130; the sort comparators instead abstract the case map as a
parameter (see `sortPhotosBy`). -/
def sToLower (s : String) : String := ⟨s.data.map Char.toLower⟩

/-- `strings.Contains(s, string(c))` for a one-character pattern. -/
def sContainsChar (s : String) (c : Char) : Bool := s.data.contains c

/-- `strings.TrimPrefix`. -/
def sTrimPfx (s pre : String) : String :=
  if pre.data.isPrefixOf s.data then ⟨s.data.drop pre.data.length⟩ else s

/-- `strings.EqualFold(v, "https")`, the only EqualFold comparison the
program makes.  EqualFold matches strings rune by rune up to Unicode simple
case folding; the fold orbits meeting the runes of "https" are h/H, t/T,
p/P and s/S/U+017F (LATIN SMALL LETTER LONG S, whose SimpleFold orbit
contains 's').  A string is EqualFold-equal to "https" exactly when it has
five runes lying in these orbits position by position. -/
def eqFoldHttps (v : String) : Bool :=
  match v.data with
  | [c1, c2, c3, c4, c5] =>
    decide ((c1 = 'h' ∨ c1 = 'H') ∧ (c2 = 't' ∨ c2 = 'T') ∧
      (c3 = 't' ∨ c3 = 'T') ∧ (c4 = 'p' ∨ c4 = 'P') ∧
      (c5 = 's' ∨ c5 = 'S' ∨ c5 = 'ſ'))
  | _ => false

/-- `firstNonEmpty` from main.go: first argument if non-blank, else second. -/
def firstNonEmpty (a b : String) : String :=
  if goTrimSpace a ≠ "" then a else b

/-- `constantTimeEqual` from main.go: a length check followed by
`subtle.ConstantTimeCompare`, which as a function is byte-slice equality. -/
def constantTimeEqual (a b : String) : Bool := a == b

/-- `strings.SplitN(s, " ", 2)`: split at the first space, if any. -/
def splitFirstSpace : List Char → Option (List Char × List Char)
  | [] => none
  | c :: cs =>
    if c = ' ' then some ([], cs)
    else (splitFirstSpace cs).map (fun p => (c :: p.1, p.2))

/-- `parseBearer` from main.go. -/
def parseBearer (authz : String) : String :=
  let a := trimSpaceL authz.data
  if a = [] then ""
  else
    match splitFirstSpace a with
    | none => ""
    | some (p0, p1) =>
      if (trimSpaceL p0).map Char.toLower = "bearer".data then ⟨trimSpaceL p1⟩
      else ""

/-! ## Path model: Go `path/filepath` on Unix -/

/-- Split a character list on '/' (chunks between separators, possibly empty). -/
def splitOnSlash : List Char → List (List Char)
  | [] => [[]]
  | c :: cs =>
    if c = '/' then [] :: splitOnSlash cs
    else
      match splitOnSlash cs with
      | [] => [[c]]
      | s :: ss => (c :: s) :: ss

/-- Join segments with '/' between them. -/
def intercalateSlash : List (List Char) → List Char
  | [] => []
  | [s] => s
  | s :: rest => s ++ '/' :: intercalateSlash rest

/-- One step of `filepath.Clean`'s element loop, operating on a stack of
already-emitted segments (most recent first).  Empty and "." segments are
dropped; ".." pops a poppable segment, is dropped at the root, and is kept
for relative paths with nothing left to pop. -/
def cleanStep (rooted : Bool) (acc : List (List Char)) (seg : List Char) :
    List (List Char) :=
  if seg = [] ∨ seg = ['.'] then acc
  else if seg = ['.', '.'] then
    match acc with
    | [] => if rooted then [] else [['.', '.']]
    | top :: acc' => if top = ['.', '.'] then seg :: top :: acc' else acc'
  else seg :: acc

/-- The final segment stack of `filepath.Clean` (most recent first). -/
def cleanStack (rooted : Bool) (segs : List (List Char)) : List (List Char) :=
  segs.foldl (cleanStep rooted) []

/-- `filepath.Clean` on character lists (Unix rules). -/
def goCleanL (s : List Char) : List Char :=
  if s = [] then ['.']
  else
    let rooted := decide (s.head? = some '/')
    let segs := (cleanStack rooted (splitOnSlash s)).reverse
    if segs = [] then (if rooted then ['/'] else ['.'])
    else (if rooted then ['/'] else []) ++ intercalateSlash segs

/-- `filepath.Clean`. -/
def goClean (s : String) : String := ⟨goCleanL s.data⟩

/-- `filepath.Base` on character lists: the last non-empty chunk, "/" for
all-slash paths, "." for the empty path. -/
def goBaseL (s : List Char) : List Char :=
  if s = [] then ['.']
  else
    match ((splitOnSlash s).filter (fun seg => !seg.isEmpty)).getLast? with
    | none => ['/']
    | some seg => seg

/-- `filepath.Base`. -/
def goBase (s : String) : String := ⟨goBaseL s.data⟩

/-- `filepath.Join(a, b)`: join the non-empty elements with '/' and clean. -/
def goJoin2L (a b : List Char) : List Char :=
  if a = [] ∧ b = [] then []
  else if a = [] then goCleanL b
  else if b = [] then goCleanL a
  else goCleanL (a ++ '/' :: b)

/-- `filepath.Join` (two arguments). -/
def goJoin2 (a b : String) : String := ⟨goJoin2L a.data b.data⟩

/-- `filepath.Abs` with the working directory as an explicit parameter
(`os.Getwd` modelled as a pure value). -/
def goAbsL (cwd p : List Char) : List Char :=
  if p.head? = some '/' then goCleanL p else goJoin2L cwd p

/-- `filepath.Abs`. -/
def goAbs (cwd p : String) : String := ⟨goAbsL cwd.data p.data⟩

/-- The chunk list `filepath.Rel`'s scanning loop walks over: for a rooted
path the leading '/' is consumed (both sides are rooted when the loop runs),
and an exhausted path contributes no chunks. -/
def relChunks (s : List Char) : List (List Char) :=
  match s with
  | [] => []
  | c :: rest =>
    if c = '/' then (if rest = [] then [] else splitOnSlash rest)
    else splitOnSlash (c :: rest)

/-- Drop the longest common chunk prefix, returning both remainders. -/
def dropCommon : List (List Char) → List (List Char) →
    List (List Char) × List (List Char)
  | a :: as', b :: bs => if a = b then dropCommon as' bs else (a :: as', b :: bs)
  | as', bs => (as', bs)

/-- `filepath.Rel` on character lists (Unix rules; `none` is the error). -/
def goRelL (basepath targpath : List Char) : Option (List Char) :=
  let base := goCleanL basepath
  let targ := goCleanL targpath
  if targ = base then some ['.']
  else
    let base := if base = ['.'] then [] else base
    let baseSlashed := decide (base.head? = some '/')
    let targSlashed := decide (targ.head? = some '/')
    if baseSlashed ≠ targSlashed then none
    else
      let (brem, trem) := dropCommon (relChunks base) (relChunks targ)
      match brem with
      | [] => some (intercalateSlash trem)
      | b :: rest =>
        if b = ['.', '.'] then none
        else
          some (intercalateSlash
            (List.replicate (rest.length + 1) ['.', '.'] ++ trem))

/-- `filepath.Rel`. -/
def goRel (basepath targpath : String) : Option String :=
  (goRelL basepath.data targpath.data).map (fun l => ⟨l⟩)

/-- `safeJoin` from main.go on character lists.  The error return is `none`;
`filepath.Abs` is modelled with an explicit working directory. -/
def safeJoinL (cwd baseDir fileName : List Char) : Option (List Char) :=
  if fileName = [] then none
  else
    let clean := goBaseL (goCleanL fileName)
    let joined := goJoin2L baseDir clean
    let baseAbs := goAbsL cwd baseDir
    let joinedAbs := goAbsL cwd joined
    match goRelL baseAbs joinedAbs with
    | none => none
    | some rel =>
      if ['.', '.', '/'].isPrefixOf rel ∨ rel = ['.', '.'] then none
      else some joinedAbs

/-- `safeJoin` from main.go. -/
def safeJoin (cwd baseDir fileName : String) : Option String :=
  (safeJoinL cwd.data baseDir.data fileName.data).map (fun l => ⟨l⟩)

/-! ## URL escaping (net/url, restricted to what the server produces) -/

def hexUpper (n : Nat) : Char := "0123456789ABCDEF".data.getD n '0'

def hexLower (n : Nat) : Char := "0123456789abcdef".data.getD n '0'

/-- The UTF-8 bytes of a character (Go strings are byte sequences and
escaping operates per byte). -/
def utf8Bytes (c : Char) : List Nat :=
  let n := c.toNat
  if n < 0x80 then [n]
  else if n < 0x800 then [0xC0 + n / 0x40, 0x80 + n % 0x40]
  else if n < 0x10000 then
    [0xE0 + n / 0x1000, 0x80 + n / 0x40 % 0x40, 0x80 + n % 0x40]
  else
    [0xF0 + n / 0x40000, 0x80 + n / 0x1000 % 0x40,
     0x80 + n / 0x40 % 0x40, 0x80 + n % 0x40]

def pctByte (n : Nat) : List Char := ['%', hexUpper (n / 16), hexUpper (n % 16)]

/-- RFC 3986 unreserved bytes (never escaped by net/url). -/
def isUnreservedByte (c : Char) : Bool :=
  decide (('a' ≤ c ∧ c ≤ 'z') ∨ ('A' ≤ c ∧ c ≤ 'Z') ∨ ('0' ≤ c ∧ c ≤ '9') ∨
    c = '-' ∨ c = '_' ∨ c = '.' ∨ c = '~')

/-- `url.QueryEscape` (mode `encodeQueryComponent`): everything but the
unreserved bytes is escaped, space becomes '+'. -/
def queryEscapeGo (s : String) : String :=
  ⟨(s.data.map (fun c =>
      if c = ' ' then ['+']
      else if isUnreservedByte c then [c]
      else ((utf8Bytes c).map pctByte).flatten)).flatten⟩

/-- Bytes kept verbatim by `URL.EscapedPath` (mode `encodePath`). -/
def pathKeepByte (c : Char) : Bool :=
  isUnreservedByte c ||
  decide (c = '$' ∨ c = '&' ∨ c = '+' ∨ c = ',' ∨ c = '/' ∨ c = ':' ∨
    c = ';' ∨ c = '=' ∨ c = '@')

/-- `URL.EscapedPath` for a URL whose `RawPath` is not set. -/
def pathEscapeGo (s : String) : String :=
  ⟨(s.data.map (fun c =>
      if pathKeepByte c then [c] else ((utf8Bytes c).map pctByte).flatten)).flatten⟩

/-- Stable sort of query pairs by key: `url.Values.Encode` iterates keys in
sorted order and keeps each key's values in parse order. -/
def sortPairsByKey (q : List (String × String)) : List (String × String) :=
  List.insertionSort (fun a b => a.1 ≤ b.1) q

/-- `url.Values.Encode` applied to parsed query pairs. -/
def encodeQuery (q : List (String × String)) : String :=
  String.intercalate "&"
    ((sortPairsByKey q).map (fun p => queryEscapeGo p.1 ++ "=" ++ queryEscapeGo p.2))

/-- `URL.String()` for a server-request URL (no scheme/host/fragment,
`RawPath` unset): escaped path plus "?query" when the query is non-empty. -/
def urlString (path rawQuery : String) : String :=
  pathEscapeGo path ++ (if rawQuery = "" then "" else "?" ++ rawQuery)

/-- `htmlEscape` from main.go (net/http's redirect body uses the same five
replacements). -/
def htmlEscapeGo (s : String) : String :=
  ⟨(s.data.map (fun c =>
      if c = '&' then "&amp;".data
      else if c = '<' then "&lt;".data
      else if c = '>' then "&gt;".data
      else if c = '"' then "&quot;".data
      else if c = '\'' then "&#39;".data
      else [c])).flatten⟩

/-! ## HTTP model -/

/-- Response header state (`http.Header` restricted to Set/Get/Del, which is
all the program uses; keys appear in canonical form in the source). -/
abbrev Headers := List (String × String)

/-- Remove all pairs with the given key. -/
def hRemove (k : String) : Headers → Headers
  | [] => []
  | p :: rest => if p.1 = k then hRemove k rest else p :: hRemove k rest

/-- First value for the given key. -/
def hFind (k : String) : Headers → Option String
  | [] => none
  | p :: rest => if p.1 = k then some p.2 else hFind k rest

/-- `http.Header.Set`: replace all values of the key by the one given. -/
def hSet (hs : Headers) (k v : String) : Headers := (k, v) :: hRemove k hs

/-- `http.Header.Get`. -/
def hGet (hs : Headers) (k : String) : Option String := hFind k hs

/-- `http.Header.Del`. -/
def hDel (hs : Headers) (k : String) : Headers := hRemove k hs

inductive CookieSameSite where
  | defaultMode | laxMode | strictMode | noneMode
deriving DecidableEq, Repr

/-- An outgoing cookie as handed to `http.SetCookie`. -/
structure SetCookie where
  name : String
  value : String
  path : String
  maxAge : Nat
  httpOnly : Bool
  sameSite : CookieSameSite
  secure : Bool
deriving DecidableEq, Repr

/-- An incoming HTTP request.  `query` is the parse of `rawQuery` (what
`r.URL.Query()` returns); `cookies` and `headers` are the parsed cookie and
header pairs; `tls` is whether `r.TLS != nil`. -/
structure Request where
  method : String
  path : String
  rawQuery : String
  query : List (String × String)
  cookies : List (String × String)
  headers : List (String × String)
  tls : Bool

structure Response where
  status : Nat
  headers : Headers
  cookies : List SetCookie
  body : String

/-- `url.Values.Get`: first value for the key, "" when absent. -/
def queryGet (q : List (String × String)) (k : String) : String :=
  match q.find? (fun p => p.1 == k) with
  | some p => p.2
  | none => ""

/-- `http.Header.Get`: first value, "" when absent. -/
def headerGet (hs : List (String × String)) (k : String) : String :=
  match hs.find? (fun p => p.1 == k) with
  | some p => p.2
  | none => ""

/-- `r.Cookie(name)`: the first cookie of that name, error when absent. -/
def cookieGet (req : Request) (name : String) : Option String :=
  (req.cookies.find? (fun p => p.1 == name)).map (fun p => p.2)

/-- `http.Error`: drops Content-Length, forces a plain-text content type,
sets `X-Content-Type-Options: nosniff`, writes the message plus newline. -/
def httpError (hs : Headers) (msg : String) (code : Nat) : Response :=
  { status := code,
    headers := hSet (hSet (hDel hs "Content-Length")
      "Content-Type" "text/plain; charset=utf-8")
      "X-Content-Type-Options" "nosniff",
    cookies := [],
    body := msg ++ "\n" }

/-- `http.NotFound`. -/
def notFoundResp (hs : Headers) : Response :=
  httpError hs "404 page not found" 404

def statusText (code : Nat) : String :=
  if code = 301 then "Moved Permanently"
  else if code = 302 then "Found"
  else ""

/-- Outcome of net/url `getScheme`: a lone leading ':' is a parse error, a
valid scheme makes the reference absolute, anything else leaves a relative
reference. -/
inductive SchemeScan where
  | schemeErr | schemeNone | schemeSome
deriving DecidableEq, Repr

/-- The scan of net/url `getScheme` (the Bool is whether we are at the first
character). -/
def schemeScanAux : Bool → List Char → SchemeScan
  | _, [] => .schemeNone
  | first, c :: rest =>
    if ('a' ≤ c ∧ c ≤ 'z') ∨ ('A' ≤ c ∧ c ≤ 'Z') then schemeScanAux false rest
    else if ('0' ≤ c ∧ c ≤ '9') ∨ c = '+' ∨ c = '-' ∨ c = '.' then
      (if first then .schemeNone else schemeScanAux false rest)
    else if c = ':' then (if first then .schemeErr else .schemeSome)
    else .schemeNone

/-- The host part of an authority: what follows the last '@' (the userinfo
delimiter). -/
def urlHost (a : List Char) : List Char :=
  (a.reverse.takeWhile (fun c => c != '@')).reverse

/-- net/url.Parse rejects URLs containing ASCII control bytes. -/
def hasCTL (t : List Char) : Bool :=
  t.any (fun c => decide (c.toNat < 0x20 ∨ c.toNat = 0x7f))

/-- `path.Split`: the directory part of a path, up to and including the
final slash. -/
def olddirOf (p : List Char) : List Char :=
  (p.reverse.dropWhile (fun c => c != '/')).reverse

/-- Bytes outside ASCII are percent-encoded in the Location header value
(net/http `hexEscapeNonASCII`). -/
def hexEscapeNonASCII (s : List Char) : List Char :=
  (s.map (fun c =>
    if c.toNat < 0x80 then [c] else ((utf8Bytes c).map pctByte).flatten)).flatten

/-- The target URL as `http.Redirect` rewrites it before answering: a
relative reference (no scheme and no host, per net/url.Parse) is resolved
against the request path and its path part is cleaned by `path.Clean`,
preserving a trailing slash; a reference with a scheme or a host, or one
net/url rejects (control bytes, a lone leading ':', a colon in the first
path segment), is left verbatim.  Parse outcomes are modelled as far as the
escaped URLs this server emits can exercise them: their bytes lie in
net/url's path alphabet, so userinfo and host validation cannot fail in
ways not distinguished here. -/
def redirectRewrite (oldpath target : List Char) : List Char :=
  if hasCTL target then target
  else
    match schemeScanAux true target with
    | .schemeErr => target
    | .schemeSome => target
    | .schemeNone =>
      let rest := (target.takeWhile (fun c => c != '#')).takeWhile (fun c => c != '?')
      if rest.head? ≠ some '/' ∧ ':' ∈ rest.takeWhile (fun c => c != '/') then
        target
      else if rest.take 2 = ['/', '/'] ∧ rest.take 3 ≠ ['/', '/', '/'] ∧
          urlHost ((rest.drop 2).takeWhile (fun c => c != '/')) ≠ [] then
        target
      else
        let old := if oldpath = [] then ['/'] else oldpath
        let url := if target.head? = some '/' then target else olddirOf old ++ target
        let p := url.takeWhile (fun c => c != '?')
        let q := url.drop p.length
        let np := goCleanL p
        (if p.getLast? = some '/' ∧ np.getLast? ≠ some '/' then np ++ ['/'] else np) ++ q

/-- `http.Redirect`: rewrites the relative target (query split off, path
made absolute against the request path and cleaned — see `redirectRewrite`),
sets Location with non-ASCII bytes percent-encoded and, for GET requests
without a content type already set, an HTML hyperlink body. -/
def redirectResp (req : Request) (url : String) (code : Nat) (hs : Headers) :
    Response :=
  let url : String := ⟨redirectRewrite req.path.data url.data⟩
  let hadCT := (hGet hs "Content-Type").isSome
  let hs' := hSet hs "Location" ⟨hexEscapeNonASCII url.data⟩
  if ¬ hadCT ∧ req.method = "GET" then
    { status := code,
      headers := hSet hs' "Content-Type" "text/html; charset=utf-8",
      cookies := [],
      body := "<a href=\"" ++ htmlEscapeGo url ++ "\">" ++ statusText code ++
        "</a>.\n\n" }
  else { status := code, headers := hs', cookies := [], body := "" }

/-! ## Filesystem and embedded assets -/

structure DirEntry where
  name : String
  isDir : Bool
deriving DecidableEq, Repr

structure FileInfo where
  isDir : Bool
  mtime : Int
  size : Int
deriving DecidableEq, Repr

/-- The ambient state the server reads: `os.ReadDir`, `os.Stat`, the
embedded static files, and file contents for `http.ServeFile`. -/
structure World where
  readDir : String → Option (List DirEntry)
  stat : String → Option FileInfo
  staticFiles : String → Option String
  fileContent : String → String

/-- `mime.TypeByExtension` restricted to Go's builtin table ("" if absent;
system tables are not modelled — no claim depends on content types). -/
def mimeByExt (ext : String) : String :=
  if ext = ".avif" then "image/avif"
  else if ext = ".css" then "text/css; charset=utf-8"
  else if ext = ".gif" then "image/gif"
  else if ext = ".htm" then "text/html; charset=utf-8"
  else if ext = ".html" then "text/html; charset=utf-8"
  else if ext = ".jpeg" then "image/jpeg"
  else if ext = ".jpg" then "image/jpeg"
  else if ext = ".js" then "text/javascript; charset=utf-8"
  else if ext = ".json" then "application/json"
  else if ext = ".mjs" then "text/javascript; charset=utf-8"
  else if ext = ".pdf" then "application/pdf"
  else if ext = ".png" then "image/png"
  else if ext = ".svg" then "image/svg+xml"
  else if ext = ".wasm" then "application/wasm"
  else if ext = ".webp" then "image/webp"
  else if ext = ".xml" then "text/xml; charset=utf-8"
  else ""

/-- `filepath.Ext` scanning helper, walking the reversed characters. -/
def extAux : List Char → List Char → List Char
  | [], _ => []
  | c :: rest, acc =>
    if c = '/' then []
    else if c = '.' then '.' :: acc
    else extAux rest (c :: acc)

/-- `filepath.Ext`: the suffix from the final dot of the last element. -/
def goExt (s : String) : String := ⟨extAux s.data.reverse []⟩

/-- `isAllowedExt` from main.go. -/
def isAllowedExt (name : String) : Bool :=
  let ext := sToLower (goExt name)
  decide (ext = ".jpg" ∨ ext = ".jpeg" ∨ ext = ".png" ∨ ext = ".webp" ∨
    ext = ".gif")

/-- `urlPathEscape` from main.go: a `strings.NewReplacer` over four
single-character patterns, i.e. a per-character replacement. -/
def urlPathEscape (s : String) : String :=
  ⟨(s.data.map (fun c =>
      if c = '%' then "%25".data
      else if c = ' ' then "%20".data
      else if c = '#' then "%23".data
      else if c = '?' then "%3F".data
      else [c])).flatten⟩

structure Photo where
  url : String
  name : String
  mtime : Int
  size : Int
deriving DecidableEq, Repr

def mkPhotoURL (name : String) (mtime : Int) : String :=
  "/photos/" ++ urlPathEscape name ++ "?v=" ++ toString mtime

/-- The per-entry loop of `scanPhotos` from main.go. -/
def scanLoop (w : World) (cwd dir : String) : List DirEntry → List Photo
  | [] => []
  | e :: rest =>
    if e.isDir then scanLoop w cwd dir rest
    else if ¬ isAllowedExt e.name then scanLoop w cwd dir rest
    else
      match safeJoin cwd dir e.name with
      | none => scanLoop w cwd dir rest
      | some fullPath =>
        match w.stat fullPath with
        | none => scanLoop w cwd dir rest
        | some fi =>
          if fi.isDir then scanLoop w cwd dir rest
          else
            { url := mkPhotoURL e.name fi.mtime, name := e.name,
              mtime := fi.mtime, size := fi.size } :: scanLoop w cwd dir rest

/-- `scanPhotos` from main.go; fails exactly when `os.ReadDir` fails. -/
def scanPhotos (w : World) (cwd dir : String) : Option (List Photo) :=
  (w.readDir dir).map (scanLoop w cwd dir)

/-- `sortPhotos` from main.go, with the `strings.ToLower` key map of the
name comparators abstracted as the parameter `lower` (Go's Unicode case
table is not reproduced in this development; the sorting theorems hold for
every key map, hence in particular for Go's).  Go's `sort.Slice(less)`
guarantees an output that is a permutation of the input sorted so
consecutive elements never satisfy `less` backwards; it is modelled by a
deterministic sort under the relation `le a b := ¬ less b a` derived from
each case's `less`. -/
def sortPhotosBy (lower : String → String) (photos : List Photo)
    (order : String) : List Photo :=
  match order with
  | "mtime_asc" => List.insertionSort (fun a b => a.mtime ≤ b.mtime) photos
  | "name_asc" =>
    List.insertionSort (fun a b => lower a.name ≤ lower b.name) photos
  | "name_desc" =>
    List.insertionSort (fun a b => lower b.name ≤ lower a.name) photos
  | _ => List.insertionSort (fun a b => b.mtime ≤ a.mtime) photos

/-- The `sortPhotos` instance the listing pipeline runs, keyed by the ASCII
fragment of `strings.ToLower` (see `sToLower`). -/
def sortPhotos (photos : List Photo) (order : String) : List Photo :=
  sortPhotosBy sToLower photos order

/-! ## JSON body of /api/photos (json.Encoder with two-space indent) -/

def jsonLB : String := ⟨[Char.ofNat 123]⟩

def jsonRB : String := ⟨[Char.ofNat 125]⟩

def jsonEscChar (c : Char) : List Char :=
  if c = '"' then ['\\', '"']
  else if c = '\\' then ['\\', '\\']
  else if c = '\n' then ['\\', 'n']
  else if c = '\r' then ['\\', 'r']
  else if c = '\t' then ['\\', 't']
  else if c = '<' then "\\u003c".data
  else if c = '>' then "\\u003e".data
  else if c = '&' then "\\u0026".data
  else if c.toNat < 0x20 then
    "\\u00".data ++ [hexLower (c.toNat / 16), hexLower (c.toNat % 16)]
  else [c]

def jsonStr (s : String) : String :=
  "\"" ++ String.mk (s.data.map jsonEscChar).flatten ++ "\""

def jsonPhotoObj (p : Photo) : String :=
  "    " ++ jsonLB ++ "\n      \"url\": " ++ jsonStr p.url ++
  ",\n      \"name\": " ++ jsonStr p.name ++
  ",\n      \"mtime\": " ++ toString p.mtime ++
  ",\n      \"size\": " ++ toString p.size ++ "\n    " ++ jsonRB

/-- The encoded `PhotosResponse` (a Go nil slice encodes as `null`). -/
def jsonPhotosBody (photos : List Photo) : String :=
  jsonLB ++ "\n  \"photos\": " ++
  (if photos.isEmpty then "null"
   else "[\n" ++ String.intercalate ",\n" (photos.map jsonPhotoObj) ++ "\n  ]") ++
  ",\n  \"count\": " ++ toString photos.length ++ "\n" ++ jsonRB ++ "\n"

/-! ## Route handlers (the closures registered on the mux in main) -/

/-- `serveEmbeddedFile` from main.go. -/
def serveEmbeddedFile (w : World) (path forcedCT : String) (hs : Headers) :
    Response :=
  match w.staticFiles path with
  | none => notFoundResp hs
  | some b =>
    let hs :=
      if forcedCT ≠ "" then hSet hs "Content-Type" forcedCT
      else
        let ct := mimeByExt (sToLower (goExt path))
        if ct ≠ "" then hSet hs "Content-Type" ct
        else hSet hs "Content-Type" "application/octet-stream"
    let hs :=
      if "static/".data.isPrefixOf path.data ∧ path ≠ "static/index.html" ∧
          path ≠ "static/info.html"
      then hSet hs "Cache-Control" "public, max-age=86400"
      else hSet hs "Cache-Control" "no-store"
    { status := 200, headers := hs, cookies := [], body := b }

/-- The "/" route: slideshow UI, 404 for any other path under the subtree. -/
def rootHandler (w : World) (req : Request) (hs : Headers) : Response :=
  if req.path ≠ "/" then notFoundResp hs
  else serveEmbeddedFile w "static/index.html" "text/html; charset=utf-8" hs

/-- The "/info" route. -/
def infoHandler (w : World) (req : Request) (hs : Headers) : Response :=
  if req.path ≠ "/info" then notFoundResp hs
  else if req.method ≠ "GET" then
    httpError (hSet hs "Allow" "GET") "method not allowed" 405
  else serveEmbeddedFile w "static/info.html" "text/html; charset=utf-8" hs

/-- The "/static/" route. -/
def staticHandler (w : World) (req : Request) (hs : Headers) : Response :=
  let path := sTrimPfx req.path "/"
  if ¬ ("static/".data.isPrefixOf path.data) then notFoundResp hs
  else serveEmbeddedFile w path "" hs

/-- The "/api/photos" route. -/
def apiPhotosHandler (w : World) (cwd absDir : String) (req : Request)
    (hs : Headers) : Response :=
  if req.method ≠ "GET" then
    httpError (hSet hs "Allow" "GET") "method not allowed" 405
  else
    match scanPhotos w cwd absDir with
    | none => httpError hs "failed to scan photos directory" 500
    | some photos =>
      let sorted := sortPhotos photos (queryGet req.query "order")
      let hs := hSet hs "Content-Type" "application/json; charset=utf-8"
      let hs := hSet hs "Cache-Control" "no-store"
      { status := 200, headers := hs, cookies := [],
        body := jsonPhotosBody sorted }

/-- `http.ServeFile` after the handler's own checks: 200 with the file
bytes (range/conditional handling not modelled; no claim depends on it). -/
def serveFileResp (w : World) (fullPath : String) (hs : Headers) : Response :=
  { status := 200, headers := hSet hs "Accept-Ranges" "bytes",
    cookies := [], body := w.fileContent fullPath }

/-- The "/photos/" route. -/
def photosHandler (w : World) (cwd absDir : String) (req : Request)
    (hs : Headers) : Response :=
  if req.method ≠ "GET" ∧ req.method ≠ "HEAD" then
    httpError (hSet hs "Allow" "GET, HEAD") "method not allowed" 405
  else
    let name := sTrimPfx req.path "/photos/"
    if name = "" then notFoundResp hs
    else if sContainsChar name '/' ∨ sContainsChar name '\\' then
      notFoundResp hs
    else if ¬ isAllowedExt name then notFoundResp hs
    else
      match safeJoin cwd absDir name with
      | none => notFoundResp hs
      | some fullPath =>
        match w.stat fullPath with
        | none => notFoundResp hs
        | some fi =>
          if fi.isDir then notFoundResp hs
          else
            let ct := mimeByExt (sToLower (goExt name))
            let hs := if ct ≠ "" then hSet hs "Content-Type" ct else hs
            let hs := hSet hs "Cache-Control"
              "public, max-age=31536000, immutable"
            serveFileResp w fullPath hs

/-- The "/healthz" route: 200 "ok" for every request. -/
def healthzHandler (hs : Headers) : Response :=
  { status := 200,
    headers := hSet hs "Content-Type" "text/plain; charset=utf-8",
    cookies := [], body := "ok" }

/-! ## ServeMux -/

/-- net/http's `cleanPath`: `path.Clean` plus leading-slash and
trailing-slash preservation. -/
def cleanPath (p : String) : String :=
  if p = "" then "/"
  else
    let p := if p.data.head? = some '/' then p else "/" ++ p
    let np := goClean p
    if p.data.getLast? = some '/' ∧ np ≠ "/" then
      (if np.data ++ ['/'] = p.data then p else np ++ "/")
    else np

/-- Pattern dispatch for the six registered routes: exact patterns first,
then the longest registered subtree. -/
def muxDispatch (w : World) (cwd absDir : String) (req : Request)
    (hs : Headers) : Response :=
  if req.path = "/info" then infoHandler w req hs
  else if req.path = "/api/photos" then apiPhotosHandler w cwd absDir req hs
  else if req.path = "/healthz" then healthzHandler hs
  else if "/static/".data.isPrefixOf req.path.data then staticHandler w req hs
  else if "/photos/".data.isPrefixOf req.path.data then
    photosHandler w cwd absDir req hs
  else rootHandler w req hs

/-- `ServeMux.ServeHTTP`: CONNECT skips canonicalization; a path whose
registered subtree lacks its trailing slash, or a non-canonical path, gets
a 301 to the canonical URL; otherwise dispatch. -/
def muxHandler (w : World) (cwd absDir : String) (req : Request)
    (hs : Headers) : Response :=
  if req.method = "CONNECT" then muxDispatch w cwd absDir req hs
  else
    let p := cleanPath req.path
    if p = "/static" ∨ p = "/photos" then
      redirectResp req (urlString (p ++ "/") req.rawQuery) 301 hs
    else if p ≠ req.path then
      redirectResp req (urlString p req.rawQuery) 301 hs
    else muxDispatch w cwd absDir req hs

/-! ## Security headers and auth gate -/

def securityCSP : String :=
  "default-src 'self'; img-src 'self' data:; style-src 'self'; script-src 'self'"

/-- `securityHeaders` from main.go. -/
def securityHeadersWrap (next : Request → Headers → Response)
    (req : Request) (hs : Headers) : Response :=
  let hs := hSet hs "X-Content-Type-Options" "nosniff"
  let hs := hSet hs "X-Frame-Options" "DENY"
  let hs := hSet hs "Referrer-Policy" "no-referrer"
  let hs := hSet hs "Permissions-Policy" "geolocation=(), microphone=(), camera=()"
  let hs := hSet hs "Content-Security-Policy" securityCSP
  next req hs

def authCookieName : String := "frameserve_auth"

def authCookieMaxAgeSeconds : Nat := 365 * 24 * 60 * 60

/-- `isProbablyHTTPS` from main.go. -/
def isProbablyHTTPS (req : Request) : Bool :=
  req.tls || eqFoldHttps (headerGet req.headers "X-Forwarded-Proto")

/-- The cookie `setAuthCookie` from main.go constructs. -/
def mkAuthCookie (token : String) (req : Request) : SetCookie :=
  { name := authCookieName, value := token, path := "/",
    maxAge := authCookieMaxAgeSeconds, httpOnly := true,
    sameSite := CookieSameSite.laxMode, secure := isProbablyHTTPS req }

/-- The redirect target of the token exchange: the same URL with the
`token` and `t` query parameters deleted and the query re-encoded. -/
def authRedirectLoc (req : Request) : String :=
  urlString req.path
    (encodeQuery (req.query.filter (fun p => !(p.1 == "token" || p.1 == "t"))))

/-- Abbreviated 401 page of `unauthorized` from main.go: status and headers
are exact; the static HTML/CSS boilerplate of the body is elided down to its
dynamic part (the HTML-escaped request path). No claim depends on the text. -/
def unauthorizedBody (path : String) : String :=
  "<!doctype html><html><head><title>Frameserve - Unauthorized</title></head>" ++
  "<body><h1>Unauthorized</h1><p><code>" ++ htmlEscapeGo path ++
  "?token=YOURTOKEN</code></p></body></html>"

/-- `unauthorized` from main.go. -/
def unauthorizedResp (req : Request) (hs : Headers) : Response :=
  { status := 401,
    headers := hSet (hSet hs "Cache-Control" "no-store")
      "Content-Type" "text/html; charset=utf-8",
    cookies := [],
    body := unauthorizedBody req.path }

inductive AuthOutcome where
  | pass : AuthOutcome
  | redirect : String → SetCookie → AuthOutcome
  | reject : AuthOutcome
deriving DecidableEq, Repr

/-- The cookie check of `authMiddleware`: a frameserve_auth cookie is
present and its value compares equal to the token. -/
def cookieOk (token : String) (req : Request) : Bool :=
  match cookieGet req authCookieName with
  | some v => constantTimeEqual token v
  | none => false

/-- The decision `authMiddleware` takes on a request, in the source's
control-flow order: /healthz bypass; query token exchange on match (falling
through on mismatch); cookie; bearer; reject. -/
def authGate (token : String) (req : Request) : AuthOutcome :=
  if req.path = "/healthz" then .pass
  else
    let provided := firstNonEmpty (queryGet req.query "token") (queryGet req.query "t")
    if provided ≠ "" ∧ constantTimeEqual token provided then
      .redirect (authRedirectLoc req) (mkAuthCookie token req)
    else if cookieOk token req then .pass
    else
      let bearer := parseBearer (headerGet req.headers "Authorization")
      if bearer ≠ "" ∧ constantTimeEqual token bearer then .pass
      else .reject

/-- `authMiddleware` from main.go: acts on the gate's decision. -/
def authMiddleware (token : String) (next : Request → Headers → Response)
    (req : Request) (hs : Headers) : Response :=
  match authGate token req with
  | .pass => next req hs
  | .redirect loc c =>
    let r := redirectResp req loc 302 hs
    { r with cookies := [c] }
  | .reject => unauthorizedResp req hs

/-! ## Whole-server assembly and configuration -/

/-- `getenv` from main.go. -/
def getenv (env : String → String) (k dflt : String) : String :=
  let v := goTrimSpace (env k)
  if v = "" then dflt else v

structure Config where
  port : String
  photosDir : String
  authToken : String
deriving DecidableEq, Repr

/-- Configuration loading in `main`: PORT and PHOTOS_DIR via `getenv`
(trimmed, defaulted), AUTH_TOKEN trimmed with empty meaning disabled. -/
def cfgFromEnv (env : String → String) : Config :=
  { port := getenv env "PORT" "80",
    photosDir := getenv env "PHOTOS_DIR" "/photos",
    authToken := goTrimSpace (env "AUTH_TOKEN") }

/-- The full handler chain of `main`: mux, wrapped by security headers,
wrapped by auth when a token is configured. -/
def appHandler (w : World) (cwd authToken absPhotosDir : String)
    (req : Request) : Response :=
  let inner := securityHeadersWrap (muxHandler w cwd absPhotosDir)
  if authToken ≠ "" then authMiddleware authToken inner req []
  else inner req []

/-- The server as configured from the environment. -/
def appFromEnv (w : World) (cwd : String) (env : String → String)
    (req : Request) : Response :=
  let cfg := cfgFromEnv env
  appHandler w cwd cfg.authToken (goAbs cwd cfg.photosDir) req

/-! ## Auxiliary definitions used by the theorems -/

/-- The five fixed security headers are present with their fixed values. -/
def SecPreserved (hs : Headers) : Prop :=
  hGet hs "X-Content-Type-Options" = some "nosniff" ∧
  hGet hs "X-Frame-Options" = some "DENY" ∧
  hGet hs "Referrer-Policy" = some "no-referrer" ∧
  hGet hs "Permissions-Policy" = some "geolocation=(), microphone=(), camera=()" ∧
  hGet hs "Content-Security-Policy" = some securityCSP

/-- A world with nothing in it (no directory, no files). -/
def emptyWorld : World :=
  ⟨fun _ => none, fun _ => none, fun _ => none, fun _ => ""⟩

/-- A credential-free request, for concrete instantiations. -/
def bareReq (m p : String) : Request := ⟨m, p, "", [], [], [], false⟩

/-- The header state right after the securityHeaders wrapper's five writes. -/
def secInit : Headers :=
  hSet (hSet (hSet (hSet (hSet [] "X-Content-Type-Options" "nosniff")
    "X-Frame-Options" "DENY") "Referrer-Policy" "no-referrer")
    "Permissions-Policy" "geolocation=(), microphone=(), camera=()")
    "Content-Security-Policy" securityCSP

/-- Two concrete photos, for witness instantiations. -/
def samplePhotos : List Photo :=
  [⟨"/photos/b.png?v=200", "b.png", 200, 7⟩,
   ⟨"/photos/a.jpg?v=100", "a.jpg", 100, 5⟩]

/-- A concrete request carrying a query token, for witness instantiations. -/
def tokenReq : Request :=
  ⟨"GET", "/", "a=1&token=secret", [("a", "1"), ("token", "secret")], [], [],
    false⟩

/-- A plain path segment: non-empty, separator-free, and not "." or "..". -/
def PlainSeg (seg : List Char) : Prop :=
  seg ≠ [] ∧ '/' ∉ seg ∧ seg ≠ ['.'] ∧ seg ≠ ['.', '.']

instance (seg : List Char) : Decidable (PlainSeg seg) := by
  unfold PlainSeg
  infer_instance

/-- A cleaned absolute path (the shape `filepath.Abs` returns). -/
def CleanAbsL (p : List Char) : Prop :=
  p.head? = some '/' ∧ goCleanL p = p

instance (p : List Char) : Decidable (CleanAbsL p) := by
  unfold CleanAbsL
  infer_instance

/-- The canonical absolute path with the given segment list. -/
def canonAbs (S : List (List Char)) : List Char :=
  if S = [] then ['/'] else '/' :: intercalateSlash S

/-- The segment list (in path order) `filepath.Clean` keeps for a rooted
path. -/
def rootStack (s : List Char) : List (List Char) :=
  (cleanStack true (splitOnSlash s)).reverse

/-- `filepath.Join(dir, name)` for a clean absolute dir and a plain name:
the direct-child path. -/
def childPathL (base seg : List Char) : List Char :=
  (if base = ['/'] then [] else base) ++ '/' :: seg

/-- String version of `childPathL`. -/
def childPath (dir name : String) : String := ⟨childPathL dir.data name.data⟩

/-- The per-entry outcome of the photo scan as the spec words it: skip
directories, skip disallowed extensions, stat the direct-child path, skip
vanished files and directories, and build the Photo from the stat data. -/
def scanSpec (w : World) (dir : String) (e : DirEntry) : Option Photo :=
  if e.isDir then none
  else if ¬ isAllowedExt e.name then none
  else
    match w.stat (childPath dir e.name) with
    | none => none
    | some fi =>
      if fi.isDir then none
      else some ⟨mkPhotoURL e.name fi.mtime, e.name, fi.mtime, fi.size⟩

/-- A concrete world with two images, one text file and one subdirectory,
for witness instantiations. -/
def sampleWorld : World :=
  ⟨fun _ => some [⟨"b.png", false⟩, ⟨"a.jpg", false⟩, ⟨"c.txt", false⟩,
      ⟨"gone.gif", false⟩, ⟨"sub", true⟩],
   fun p =>
     if p = "/photos/a.jpg" then some ⟨false, 100, 5⟩
     else if p = "/photos/b.png" then some ⟨false, 200, 7⟩
     else none,
   fun _ => none, fun _ => "IMG"⟩

/-- Bytes that appear in the URLs the server builds: printable ASCII other
than '#' and '?'. -/
def urlByteGood (c : Char) : Prop :=
  0x20 ≤ c.toNat ∧ c.toNat < 0x7f ∧ c.toNat ≠ 0x23 ∧ c.toNat ≠ 0x3f

instance (c : Char) : Decidable (urlByteGood c) := by
  unfold urlByteGood
  infer_instance

/-! ## Lemmas and theorems -/

theorem hFind_hRemove_ne (k k' : String) (h : k' ≠ k) (hs : Headers) :
    hFind k' (hRemove k hs) = hFind k' hs := by
  induction hs with
  | nil => rfl
  | cons x xs ih =>
    simp only [hRemove, hFind]
    by_cases hk : x.1 = k
    · have h1 : x.1 ≠ k' := by rw [hk]; exact fun e => h e.symm
      rw [if_pos hk, if_neg h1]
      exact ih
    · rw [if_neg hk]
      simp only [hFind]
      by_cases h2 : x.1 = k'
      · rw [if_pos h2, if_pos h2]
      · rw [if_neg h2, if_neg h2]
        exact ih

theorem hGet_hSet_self (hs : Headers) (k v : String) :
    hGet (hSet hs k v) k = some v := by
  simp [hGet, hSet, hFind]

theorem hGet_hSet_ne (hs : Headers) (k v k' : String) (h : k' ≠ k) :
    hGet (hSet hs k v) k' = hGet hs k' := by
  have hk : k ≠ k' := fun e => h e.symm
  simp [hGet, hSet, hFind, hk, hFind_hRemove_ne k k' h hs]

theorem hGet_hDel_ne (hs : Headers) (k k' : String) (h : k' ≠ k) :
    hGet (hDel hs k) k' = hGet hs k' := by
  simp [hGet, hDel, hFind_hRemove_ne k k' h hs]

theorem secPreserved_hSet (hs : Headers) (k v : String) (h : SecPreserved hs)
    (h1 : "X-Content-Type-Options" ≠ k) (h2 : "X-Frame-Options" ≠ k)
    (h3 : "Referrer-Policy" ≠ k) (h4 : "Permissions-Policy" ≠ k)
    (h5 : "Content-Security-Policy" ≠ k) : SecPreserved (hSet hs k v) := by
  obtain ⟨a, b, c, d, e⟩ := h
  exact ⟨by rw [hGet_hSet_ne hs k v _ h1]; exact a,
    by rw [hGet_hSet_ne hs k v _ h2]; exact b,
    by rw [hGet_hSet_ne hs k v _ h3]; exact c,
    by rw [hGet_hSet_ne hs k v _ h4]; exact d,
    by rw [hGet_hSet_ne hs k v _ h5]; exact e⟩

theorem secPreserved_hSet_nosniff (hs : Headers) (h : SecPreserved hs) :
    SecPreserved (hSet hs "X-Content-Type-Options" "nosniff") := by
  obtain ⟨a, b, c, d, e⟩ := h
  refine ⟨hGet_hSet_self hs _ _, ?_, ?_, ?_, ?_⟩
  · rw [hGet_hSet_ne hs _ _ _ (by decide)]; exact b
  · rw [hGet_hSet_ne hs _ _ _ (by decide)]; exact c
  · rw [hGet_hSet_ne hs _ _ _ (by decide)]; exact d
  · rw [hGet_hSet_ne hs _ _ _ (by decide)]; exact e

theorem secPreserved_hDel (hs : Headers) (k : String) (h : SecPreserved hs)
    (h1 : "X-Content-Type-Options" ≠ k) (h2 : "X-Frame-Options" ≠ k)
    (h3 : "Referrer-Policy" ≠ k) (h4 : "Permissions-Policy" ≠ k)
    (h5 : "Content-Security-Policy" ≠ k) : SecPreserved (hDel hs k) := by
  obtain ⟨a, b, c, d, e⟩ := h
  exact ⟨by rw [hGet_hDel_ne hs k _ h1]; exact a,
    by rw [hGet_hDel_ne hs k _ h2]; exact b,
    by rw [hGet_hDel_ne hs k _ h3]; exact c,
    by rw [hGet_hDel_ne hs k _ h4]; exact d,
    by rw [hGet_hDel_ne hs k _ h5]; exact e⟩

theorem secPreserved_httpError (hs : Headers) (msg : String) (code : Nat)
    (h : SecPreserved hs) : SecPreserved (httpError hs msg code).headers := by
  unfold httpError
  exact secPreserved_hSet_nosniff _
    (secPreserved_hSet _ _ _
      (secPreserved_hDel _ _ h (by decide) (by decide) (by decide) (by decide)
        (by decide))
      (by decide) (by decide) (by decide) (by decide) (by decide))

theorem secPreserved_notFound (hs : Headers) (h : SecPreserved hs) :
    SecPreserved (notFoundResp hs).headers :=
  secPreserved_httpError hs _ _ h

theorem secPreserved_ct (hs : Headers) (v : String) (h : SecPreserved hs) :
    SecPreserved (hSet hs "Content-Type" v) :=
  secPreserved_hSet _ _ _ h (by decide) (by decide) (by decide) (by decide)
    (by decide)

theorem secPreserved_cc (hs : Headers) (v : String) (h : SecPreserved hs) :
    SecPreserved (hSet hs "Cache-Control" v) :=
  secPreserved_hSet _ _ _ h (by decide) (by decide) (by decide) (by decide)
    (by decide)

theorem secPreserved_allow (hs : Headers) (v : String) (h : SecPreserved hs) :
    SecPreserved (hSet hs "Allow" v) :=
  secPreserved_hSet _ _ _ h (by decide) (by decide) (by decide) (by decide)
    (by decide)

theorem secPreserved_location (hs : Headers) (v : String)
    (h : SecPreserved hs) : SecPreserved (hSet hs "Location" v) :=
  secPreserved_hSet _ _ _ h (by decide) (by decide) (by decide) (by decide)
    (by decide)

theorem secPreserved_ranges (hs : Headers) (h : SecPreserved hs) :
    SecPreserved (hSet hs "Accept-Ranges" "bytes") :=
  secPreserved_hSet _ _ _ h (by decide) (by decide) (by decide) (by decide)
    (by decide)

theorem secPreserved_serveEmbedded (w : World) (path ct : String)
    (hs : Headers) (h : SecPreserved hs) :
    SecPreserved (serveEmbeddedFile w path ct hs).headers := by
  unfold serveEmbeddedFile
  cases w.staticFiles path with
  | none => exact secPreserved_notFound hs h
  | some b =>
    dsimp only
    split
    all_goals
      refine secPreserved_cc _ _ ?_
      split
      · exact secPreserved_ct _ _ h
      · split <;> exact secPreserved_ct _ _ h

theorem secPreserved_redirectResp (req : Request) (url : String) (code : Nat)
    (hs : Headers) (h : SecPreserved hs) :
    SecPreserved (redirectResp req url code hs).headers := by
  unfold redirectResp
  dsimp only
  split
  · exact secPreserved_ct _ _ (secPreserved_location _ _ h)
  · exact secPreserved_location _ _ h

theorem secPreserved_serveFile (w : World) (fp : String) (hs : Headers)
    (h : SecPreserved hs) : SecPreserved (serveFileResp w fp hs).headers :=
  secPreserved_ranges _ h

theorem secPreserved_root (w : World) (req : Request) (hs : Headers)
    (h : SecPreserved hs) : SecPreserved (rootHandler w req hs).headers := by
  unfold rootHandler
  split
  · exact secPreserved_notFound _ h
  · exact secPreserved_serveEmbedded _ _ _ _ h

theorem secPreserved_info (w : World) (req : Request) (hs : Headers)
    (h : SecPreserved hs) : SecPreserved (infoHandler w req hs).headers := by
  unfold infoHandler
  split
  · exact secPreserved_notFound _ h
  · split
    · exact secPreserved_httpError _ _ _ (secPreserved_allow _ _ h)
    · exact secPreserved_serveEmbedded _ _ _ _ h

theorem secPreserved_static (w : World) (req : Request) (hs : Headers)
    (h : SecPreserved hs) : SecPreserved (staticHandler w req hs).headers := by
  unfold staticHandler
  dsimp only
  split
  · exact secPreserved_notFound _ h
  · exact secPreserved_serveEmbedded _ _ _ _ h

theorem secPreserved_api (w : World) (cwd absDir : String) (req : Request)
    (hs : Headers) (h : SecPreserved hs) :
    SecPreserved (apiPhotosHandler w cwd absDir req hs).headers := by
  unfold apiPhotosHandler
  split
  · exact secPreserved_httpError _ _ _ (secPreserved_allow _ _ h)
  · split
    · exact secPreserved_httpError _ _ _ h
    · exact secPreserved_cc _ _ (secPreserved_ct _ _ h)

theorem secPreserved_photos (w : World) (cwd absDir : String) (req : Request)
    (hs : Headers) (h : SecPreserved hs) :
    SecPreserved (photosHandler w cwd absDir req hs).headers := by
  unfold photosHandler
  split
  · exact secPreserved_httpError _ _ _ (secPreserved_allow _ _ h)
  · dsimp only
    repeat' split
    all_goals
      first
        | exact secPreserved_notFound _ h
        | exact secPreserved_serveFile _ _ _
            (secPreserved_cc _ _ (secPreserved_ct _ _ h))
        | exact secPreserved_serveFile _ _ _ (secPreserved_cc _ _ h)

theorem secPreserved_healthz (hs : Headers) (h : SecPreserved hs) :
    SecPreserved (healthzHandler hs).headers :=
  secPreserved_ct _ _ h

theorem secPreserved_muxDispatch (w : World) (cwd absDir : String)
    (req : Request) (hs : Headers) (h : SecPreserved hs) :
    SecPreserved (muxDispatch w cwd absDir req hs).headers := by
  unfold muxDispatch
  split
  · exact secPreserved_info _ _ _ h
  · split
    · exact secPreserved_api _ _ _ _ _ h
    · split
      · exact secPreserved_healthz _ h
      · split
        · exact secPreserved_static _ _ _ h
        · split
          · exact secPreserved_photos _ _ _ _ _ h
          · exact secPreserved_root _ _ _ h

theorem secPreserved_muxHandler (w : World) (cwd absDir : String)
    (req : Request) (hs : Headers) (h : SecPreserved hs) :
    SecPreserved (muxHandler w cwd absDir req hs).headers := by
  unfold muxHandler
  split
  · exact secPreserved_muxDispatch _ _ _ _ _ h
  · dsimp only
    split
    · exact secPreserved_redirectResp _ _ _ _ h
    · split
      · exact secPreserved_redirectResp _ _ _ _ h
      · exact secPreserved_muxDispatch _ _ _ _ _ h

/-- C1 (amended): every response the security-headers wrapper produces —
that is, every response when auth is disabled, and every response to a
request the auth gate passes through to the wrapped mux — carries the five
fixed security headers (`X-Content-Type-Options: nosniff`,
`X-Frame-Options: DENY`, `Referrer-Policy: no-referrer`, the restrictive
`Permissions-Policy`, and the same-origin `Content-Security-Policy`).
The Auth Gate's own 401/302 responses are produced outside the wrapper and
do not carry them (see the counterexample). -/
theorem C1_security_headers (w : World) (cwd token absDir : String)
    (req : Request)
    (h : token = "" ∨ authGate token req = AuthOutcome.pass) :
    SecPreserved (appHandler w cwd token absDir req).headers := by
  have base : SecPreserved (hSet (hSet (hSet (hSet (hSet ([] : Headers)
      "X-Content-Type-Options" "nosniff") "X-Frame-Options" "DENY")
      "Referrer-Policy" "no-referrer") "Permissions-Policy"
      "geolocation=(), microphone=(), camera=()")
      "Content-Security-Policy" securityCSP) := ⟨rfl, rfl, rfl, rfl, rfl⟩
  have inner : SecPreserved
      (securityHeadersWrap (muxHandler w cwd absDir) req []).headers := by
    unfold securityHeadersWrap
    exact secPreserved_muxHandler _ _ _ _ _ base
  by_cases ht : token = ""
  · simpa [appHandler, ht] using inner
  · rcases h with h | h
    · exact absurd h ht
    · unfold appHandler
      rw [if_pos ht]
      unfold authMiddleware
      rw [h]
      exact inner

/-- Witness for C1: a concrete auth-disabled request whose response carries
all five security headers. -/
theorem C1_security_headers_witness :
    SecPreserved
      (appHandler emptyWorld "/" "" "/photos" (bareReq "GET" "/")).headers :=
  C1_security_headers emptyWorld "/" "" "/photos" (bareReq "GET" "/")
    (Or.inl rfl)

/-- Counterexample to C1 as stated: with auth enabled, the Auth Gate's 401
page is produced outside the security-headers wrapper and carries none of
the security headers. -/
theorem C1_counterexample :
    (appHandler emptyWorld "/" "secret" "/photos" (bareReq "GET" "/")).status
        = 401 ∧
    hGet (appHandler emptyWorld "/" "secret" "/photos"
      (bareReq "GET" "/")).headers "X-Content-Type-Options" = none ∧
    hGet (appHandler emptyWorld "/" "secret" "/photos"
      (bareReq "GET" "/")).headers "X-Frame-Options" = none := by
  refine ⟨rfl, rfl, rfl⟩

/-! ### Auth gate characterization -/

theorem constantTimeEqual_iff (a b : String) :
    constantTimeEqual a b = true ↔ a = b := by
  simp [constantTimeEqual]

theorem cookieOk_iff (token : String) (req : Request) :
    cookieOk token req = true ↔ cookieGet req authCookieName = some token := by
  unfold cookieOk
  cases hc : cookieGet req authCookieName with
  | none => simp
  | some v =>
    dsimp only
    rw [constantTimeEqual_iff]
    constructor
    · intro h
      rw [h]
    · intro h
      exact (Option.some.inj h).symm

/-- The gate's decision on a request outside the health check, as a
three-way if. -/
theorem authGate_char (token : String) (req : Request) (htok : token ≠ "")
    (hp : req.path ≠ "/healthz") :
    authGate token req =
      (if firstNonEmpty (queryGet req.query "token") (queryGet req.query "t")
          = token then
        AuthOutcome.redirect (authRedirectLoc req) (mkAuthCookie token req)
      else if cookieGet req authCookieName = some token then AuthOutcome.pass
      else if parseBearer (headerGet req.headers "Authorization") = token then
        AuthOutcome.pass
      else AuthOutcome.reject) := by
  unfold authGate
  rw [if_neg hp]
  dsimp only
  by_cases hq : firstNonEmpty (queryGet req.query "token") (queryGet req.query "t") = token
  · have hcond : firstNonEmpty (queryGet req.query "token") (queryGet req.query "t") ≠ "" ∧
        constantTimeEqual token
          (firstNonEmpty (queryGet req.query "token") (queryGet req.query "t")) := by
      refine ⟨by rw [hq]; exact htok, ?_⟩
      rw [constantTimeEqual_iff, hq]
    rw [if_pos hcond, if_pos hq]
  · have hcond : ¬(firstNonEmpty (queryGet req.query "token") (queryGet req.query "t") ≠ "" ∧
        constantTimeEqual token
          (firstNonEmpty (queryGet req.query "token") (queryGet req.query "t"))) := by
      rintro ⟨-, h2⟩
      exact hq ((constantTimeEqual_iff _ _).mp h2).symm
    rw [if_neg hcond, if_neg hq]
    by_cases hc : cookieGet req authCookieName = some token
    · rw [if_pos ((cookieOk_iff token req).mpr hc), if_pos hc]
    · rw [if_neg (fun h => hc ((cookieOk_iff token req).mp h)), if_neg hc]
      by_cases hb : parseBearer (headerGet req.headers "Authorization") = token
      · have hcnd : parseBearer (headerGet req.headers "Authorization") ≠ "" ∧
            constantTimeEqual token (parseBearer (headerGet req.headers "Authorization")) := by
          refine ⟨by rw [hb]; exact htok, ?_⟩
          rw [constantTimeEqual_iff, hb]
        rw [if_pos hcnd, if_pos hb]
      · have hcnd : ¬(parseBearer (headerGet req.headers "Authorization") ≠ "" ∧
            constantTimeEqual token (parseBearer (headerGet req.headers "Authorization"))) := by
          rintro ⟨-, h2⟩
          exact hb ((constantTimeEqual_iff _ _).mp h2).symm
        rw [if_neg hcnd, if_neg hb]

/-- The application on a gate-rejected request. -/
theorem app_reject (w : World) (cwd token absDir : String) (req : Request)
    (ht : token ≠ "") (hr : authGate token req = AuthOutcome.reject) :
    appHandler w cwd token absDir req = unauthorizedResp req [] := by
  unfold appHandler
  rw [if_pos ht]
  unfold authMiddleware
  rw [hr]

/-- The application on a gate-redirected request. -/
theorem app_redirect (w : World) (cwd token absDir : String) (req : Request)
    (loc : String) (c : SetCookie) (ht : token ≠ "")
    (hr : authGate token req = AuthOutcome.redirect loc c) :
    appHandler w cwd token absDir req =
      { redirectResp req loc 302 [] with cookies := [c] } := by
  unfold appHandler
  rw [if_pos ht]
  unfold authMiddleware
  rw [hr]

/-- C3: with auth enabled, a request to a path other than /healthz reaches
the wrapped handler exactly when its cookie or bearer token equals the
secret and its query token does not match (a matching query token instead
produces the exchange redirect); in particular a wrong query token with a
valid cookie or bearer header still passes, and a request with no matching
credential receives status 401. -/
theorem C3_auth_gate (w : World) (cwd token absDir : String) (req : Request)
    (htok : token ≠ "") (hp : req.path ≠ "/healthz") :
    (authGate token req = AuthOutcome.pass ↔
      firstNonEmpty (queryGet req.query "token") (queryGet req.query "t") ≠ token ∧
      (cookieGet req authCookieName = some token ∨
        parseBearer (headerGet req.headers "Authorization") = token)) ∧
    (firstNonEmpty (queryGet req.query "token") (queryGet req.query "t") = token →
      authGate token req =
        AuthOutcome.redirect (authRedirectLoc req) (mkAuthCookie token req)) ∧
    (firstNonEmpty (queryGet req.query "token") (queryGet req.query "t") ≠ token →
      cookieGet req authCookieName ≠ some token →
      parseBearer (headerGet req.headers "Authorization") ≠ token →
      (appHandler w cwd token absDir req).status = 401) := by
  have hchar := authGate_char token req htok hp
  refine ⟨?_, ?_, ?_⟩
  · constructor
    · intro h
      rw [hchar] at h
      by_cases hq : firstNonEmpty (queryGet req.query "token") (queryGet req.query "t") = token
      · rw [if_pos hq] at h
        exact absurd h (by simp)
      · refine ⟨hq, ?_⟩
        by_cases hc : cookieGet req authCookieName = some token
        · exact Or.inl hc
        · by_cases hb : parseBearer (headerGet req.headers "Authorization") = token
          · exact Or.inr hb
          · rw [if_neg hq, if_neg hc, if_neg hb] at h
            exact absurd h (by simp)
    · rintro ⟨hq, hcb⟩
      rw [hchar, if_neg hq]
      rcases hcb with hc | hb
      · rw [if_pos hc]
      · by_cases hc : cookieGet req authCookieName = some token
        · rw [if_pos hc]
        · rw [if_neg hc, if_pos hb]
  · intro hq
    rw [hchar, if_pos hq]
  · intro hq hc hb
    have hr : authGate token req = AuthOutcome.reject := by
      rw [hchar, if_neg hq, if_neg hc, if_neg hb]
    rw [app_reject w cwd token absDir req htok hr]
    rfl

/-- Witness for C3: a request with a wrong query token but a valid cookie
passes the gate; a bare request is rejected with 401. -/
theorem C3_auth_gate_witness :
    authGate "secret"
      ⟨"GET", "/x", "token=bad", [("token", "bad")],
        [("frameserve_auth", "secret")], [], false⟩ = AuthOutcome.pass ∧
    (appHandler emptyWorld "/" "secret" "/photos"
      (bareReq "GET" "/x")).status = 401 := by
  constructor
  · exact (C3_auth_gate emptyWorld "/" "secret" "/photos"
      ⟨"GET", "/x", "token=bad", [("token", "bad")],
        [("frameserve_auth", "secret")], [], false⟩
      (by decide) (by decide)).1.mpr ⟨by decide, Or.inl (by decide)⟩
  · exact (C3_auth_gate emptyWorld "/" "secret" "/photos" (bareReq "GET" "/x")
      (by decide) (by decide)).2.2 (by decide) (by decide) (by decide)

theorem getD_good (P : Char → Prop) (l : List Char) (n : Nat) (d : Char)
    (hl : ∀ x ∈ l, P x) (hd : P d) : P (l.getD n d) := by
  rcases h : l[n]? with - | x
  · rw [List.getD_eq_getElem?_getD, h]
    exact hd
  · rw [List.getD_eq_getElem?_getD, h]
    exact hl x (List.getElem?_mem h)

theorem hexUpper_good (n : Nat) : urlByteGood (hexUpper n) :=
  getD_good _ _ n _ (by decide) (by decide)

theorem pctByte_good (n : Nat) : ∀ x ∈ pctByte n, urlByteGood x := by
  intro x hx
  rcases List.mem_cons.mp hx with rfl | hx1
  · decide
  rcases List.mem_cons.mp hx1 with rfl | hx2
  · exact hexUpper_good _
  rcases List.mem_cons.mp hx2 with rfl | hx3
  · exact hexUpper_good _
  · simp at hx3

theorem isUnreservedByte_good (c : Char) (h : isUnreservedByte c = true) :
    urlByteGood c := by
  have h' := of_decide_eq_true h
  rcases h' with ⟨h1, h2⟩ | ⟨h1, h2⟩ | ⟨h1, h2⟩ | h1 | h1 | h1 | h1
  · have a1 : 97 ≤ c.toNat := h1
    have a2 : c.toNat ≤ 122 := h2
    exact ⟨by omega, by omega, by omega, by omega⟩
  · have a1 : 65 ≤ c.toNat := h1
    have a2 : c.toNat ≤ 90 := h2
    exact ⟨by omega, by omega, by omega, by omega⟩
  · have a1 : 48 ≤ c.toNat := h1
    have a2 : c.toNat ≤ 57 := h2
    exact ⟨by omega, by omega, by omega, by omega⟩
  · rw [h1]; decide
  · rw [h1]; decide
  · rw [h1]; decide
  · rw [h1]; decide

theorem pathKeepByte_good (c : Char) (h : pathKeepByte c = true) :
    urlByteGood c := by
  rcases Bool.or_eq_true_iff.mp h with h' | h'
  · exact isUnreservedByte_good c h'
  · rcases of_decide_eq_true h' with h1 | h1 | h1 | h1 | h1 | h1 | h1 | h1 | h1 <;>
      (rw [h1]; decide)

theorem pathEscapeGo_good (s : String) :
    ∀ c ∈ (pathEscapeGo s).data, urlByteGood c := by
  intro c hc
  have hc' : c ∈ (s.data.map (fun c =>
      if pathKeepByte c then [c]
      else ((utf8Bytes c).map pctByte).flatten)).flatten := hc
  rw [List.mem_flatten] at hc'
  obtain ⟨l, hl, hcl⟩ := hc'
  rw [List.mem_map] at hl
  obtain ⟨a, -, rfl⟩ := hl
  by_cases hk : pathKeepByte a = true
  · rw [if_pos hk] at hcl
    rw [List.mem_singleton.mp hcl]
    exact pathKeepByte_good a hk
  · rw [if_neg hk] at hcl
    rw [List.mem_flatten] at hcl
    obtain ⟨l2, hl2, hcl2⟩ := hcl
    rw [List.mem_map] at hl2
    obtain ⟨n, -, rfl⟩ := hl2
    exact pctByte_good n c hcl2

theorem queryEscapeGo_good (s : String) :
    ∀ c ∈ (queryEscapeGo s).data, urlByteGood c := by
  intro c hc
  have hc' : c ∈ (s.data.map (fun c =>
      if c = ' ' then ['+']
      else if isUnreservedByte c then [c]
      else ((utf8Bytes c).map pctByte).flatten)).flatten := hc
  rw [List.mem_flatten] at hc'
  obtain ⟨l, hl, hcl⟩ := hc'
  rw [List.mem_map] at hl
  obtain ⟨a, -, rfl⟩ := hl
  by_cases hsp : a = ' '
  · rw [if_pos hsp] at hcl
    rw [List.mem_singleton.mp hcl]
    decide
  · rw [if_neg hsp] at hcl
    by_cases hk : isUnreservedByte a = true
    · rw [if_pos hk] at hcl
      rw [List.mem_singleton.mp hcl]
      exact isUnreservedByte_good a hk
    · rw [if_neg hk] at hcl
      rw [List.mem_flatten] at hcl
      obtain ⟨l2, hl2, hcl2⟩ := hcl
      rw [List.mem_map] at hl2
      obtain ⟨n, -, rfl⟩ := hl2
      exact pctByte_good n c hcl2

theorem intercalate_go_good (P : Char → Prop) (sep : String)
    (hsep : ∀ c ∈ sep.data, P c) :
    ∀ (L : List String) (acc : String), (∀ c ∈ acc.data, P c) →
      (∀ x ∈ L, ∀ c ∈ x.data, P c) →
      ∀ c ∈ (String.intercalate.go acc sep L).data, P c := by
  intro L
  induction L with
  | nil =>
    intro acc hacc _ c hc
    exact hacc c hc
  | cons a as ih =>
    intro acc hacc hL c hc
    rw [show String.intercalate.go acc sep (a :: as) =
      String.intercalate.go (acc ++ sep ++ a) sep as from rfl] at hc
    refine ih (acc ++ sep ++ a) ?_ (fun x hx => hL x (by simp [hx])) c hc
    intro d hd
    have hd' : d ∈ acc.data ++ sep.data ++ a.data := hd
    rcases List.mem_append.mp hd' with h | h
    · rcases List.mem_append.mp h with h' | h'
      · exact hacc d h'
      · exact hsep d h'
    · exact hL a (by simp) d h

theorem intercalate_good (P : Char → Prop) (sep : String) (L : List String)
    (hsep : ∀ c ∈ sep.data, P c) (hL : ∀ x ∈ L, ∀ c ∈ x.data, P c) :
    ∀ c ∈ (String.intercalate sep L).data, P c := by
  cases L with
  | nil =>
    intro c hc
    exact absurd hc (by simp [String.intercalate])
  | cons a as =>
    intro c hc
    rw [show String.intercalate sep (a :: as) =
      String.intercalate.go a sep as from rfl] at hc
    exact intercalate_go_good P sep hsep as a (hL a (by simp))
      (fun x hx => hL x (by simp [hx])) c hc

theorem encodeQuery_good (q : List (String × String)) :
    ∀ c ∈ (encodeQuery q).data, urlByteGood c := by
  refine intercalate_good _ "&" _ (by decide) ?_
  intro x hx c hc
  obtain ⟨p, -, rfl⟩ := List.mem_map.mp hx
  have hc' : c ∈ ((queryEscapeGo p.1).data ++ ['=']) ++ (queryEscapeGo p.2).data := hc
  rcases List.mem_append.mp hc' with h | h
  · rcases List.mem_append.mp h with h' | h'
    · exact queryEscapeGo_good _ c h'
    · rw [List.mem_singleton.mp h']
      decide
  · exact queryEscapeGo_good _ c h

theorem hexEscapeNonASCII_id (s : List Char) (h : ∀ c ∈ s, c.toNat < 0x80) :
    hexEscapeNonASCII s = s := by
  induction s with
  | nil => rfl
  | cons a as ih =>
    have ha : a.toNat < 0x80 := h a (by simp)
    show (List.map _ (a :: as)).flatten = a :: as
    rw [List.map_cons, List.flatten_cons, if_pos ha]
    have ih' : (List.map (fun c =>
        if c.toNat < 0x80 then [c]
        else ((utf8Bytes c).map pctByte).flatten) as).flatten = as :=
      ih (fun c hc => h c (by simp [hc]))
    rw [ih']
    rfl

theorem bne_of_toNat_ne (c d : Char) (h : c.toNat ≠ d.toNat) :
    (c != d) = true := by
  rw [bne_iff_ne]
  intro he
  exact h (congrArg Char.toNat he)

/-- On a target whose path part is rooted, not scheme-relative and already
clean, and whose bytes are the escaped alphabet, http.Redirect's rewrite is
the identity. -/
theorem redirectRewrite_id (old ep tail : List Char)
    (hep : ∀ c ∈ ep, urlByteGood c)
    (h1 : ep.head? = some '/')
    (h2 : ep.take 2 ≠ ['/', '/'])
    (h3 : goCleanL ep = ep)
    (htail : tail = [] ∨ ∃ qd, tail = '?' :: qd ∧ ∀ c ∈ qd, urlByteGood c) :
    redirectRewrite old (ep ++ tail) = ep ++ tail := by
  obtain ⟨ep', rfl⟩ : ∃ ep', ep = '/' :: ep' := by
    cases ep with
    | nil => simp at h1
    | cons a l =>
      have ha : a = '/' := by simpa using h1
      exact ⟨l, by rw [ha]⟩
  have hget : ∀ c ∈ ('/' :: ep') ++ tail, 0x20 ≤ c.toNat ∧ c.toNat < 0x7f := by
    intro c hc
    rcases List.mem_append.mp hc with h | h
    · exact ⟨(hep c h).1, (hep c h).2.1⟩
    · rcases htail with rfl | ⟨qd, rfl, hqd⟩
      · simp at h
      · rcases List.mem_cons.mp h with rfl | h'
        · exact ⟨by decide, by decide⟩
        · exact ⟨(hqd c h').1, (hqd c h').2.1⟩
  have hctl : hasCTL (('/' :: ep') ++ tail) = false := by
    simp only [hasCTL, List.any_eq_false, decide_eq_true_eq]
    intro c hc
    have := hget c hc
    omega
  have hscan : schemeScanAux true (('/' :: ep') ++ tail) = SchemeScan.schemeNone := by
    show schemeScanAux true ('/' :: (ep' ++ tail)) = _
    rw [schemeScanAux]
    rw [if_neg (by decide), if_neg (by decide), if_neg (by decide)]
  have hpos1 : ∀ c ∈ ('/' :: ep'), (c != '?') = true := by
    intro c hc
    rcases List.mem_cons.mp hc with rfl | h
    · decide
    · exact bne_of_toNat_ne c '?' (hep c (by simp [h])).2.2.2
  have htw1 : (('/' :: ep') ++ tail).takeWhile (fun c => c != '?') = '/' :: ep' := by
    rw [List.takeWhile_append_of_pos hpos1]
    rcases htail with rfl | ⟨qd, rfl, -⟩
    · simp
    · rw [show ('?' :: qd).takeWhile (fun c => c != '?') = [] from
        List.takeWhile_cons_of_neg (by decide)]
      simp
  have hallhash : ∀ c ∈ ('/' :: ep') ++ tail, (c != '#') = true := by
    intro c hc
    rcases List.mem_append.mp hc with h | h
    · exact bne_of_toNat_ne c '#' (hep c h).2.2.1
    · rcases htail with rfl | ⟨qd, rfl, hqd⟩
      · simp at h
      · rcases List.mem_cons.mp h with rfl | h'
        · decide
        · exact bne_of_toNat_ne c '#' (hqd c h').2.2.1
  have htw0 : (('/' :: ep') ++ tail).takeWhile (fun c => c != '#') =
      ('/' :: ep') ++ tail := List.takeWhile_eq_self_iff.mpr hallhash
  unfold redirectRewrite
  rw [hctl, if_neg Bool.false_ne_true, hscan]
  dsimp only
  rw [htw0, htw1]
  rw [if_neg (fun hcontra => hcontra.1 rfl)]
  rw [if_neg (fun hcontra => h2 hcontra.1)]
  have hhead : (('/' :: ep') ++ tail).head? = some '/' := by
    rw [List.cons_append]
    rfl
  rw [if_pos hhead]
  rw [htw1]
  rw [List.drop_left, h3]
  by_cases hl : ('/' :: ep').getLast? = some '/'
  · rw [if_neg (fun hcontra => hcontra.2 hl)]
  · rw [if_neg (fun hcontra => hl hcontra.1)]

/-- The full http.Redirect Location computation is the identity on a
canonical escaped URL built by `urlString`. -/
theorem redirectRewrite_urlString (old : List Char) (p q : String)
    (h1 : (pathEscapeGo p).data.head? = some '/')
    (h2 : (pathEscapeGo p).data.take 2 ≠ ['/', '/'])
    (h3 : goCleanL (pathEscapeGo p).data = (pathEscapeGo p).data)
    (hq : ∀ c ∈ q.data, urlByteGood c) :
    redirectRewrite old (urlString p q).data = (urlString p q).data ∧
    hexEscapeNonASCII (urlString p q).data = (urlString p q).data := by
  have hdata : (urlString p q).data =
      (pathEscapeGo p).data ++ (if q = "" then "" else "?" ++ q).data := rfl
  have htail : (if q = "" then "" else "?" ++ q).data = [] ∨
      ∃ qd, (if q = "" then "" else "?" ++ q).data = '?' :: qd ∧
        ∀ c ∈ qd, urlByteGood c := by
    by_cases hq0 : q = ""
    · left
      rw [if_pos hq0]
    · right
      refine ⟨q.data, ?_, fun c hc => hq c hc⟩
      rw [if_neg hq0]
      rfl
  constructor
  · rw [hdata]
    exact redirectRewrite_id old _ _ (pathEscapeGo_good p) h1 h2 h3 htail
  · refine hexEscapeNonASCII_id _ ?_
    rw [hdata]
    intro c hc
    rcases List.mem_append.mp hc with h | h
    · have := (pathEscapeGo_good p c h).2.1
      omega
    · rcases htail with he | ⟨qd, he, hqd⟩
      · rw [he] at h
        simp at h
      · rw [he] at h
        rcases List.mem_cons.mp h with rfl | h'
        · decide
        · have := (hqd c h').2.1
          omega

/-- C6 (amended): with auth enabled with token T, a request to a gated path
whose token-or-t query parameter equals T receives a 302 and sets cookie
frameserve_auth with value T, path "/", max-age 31536000, HttpOnly,
SameSite Lax, and Secure exactly when the connection is TLS or
X-Forwarded-Proto equals "https" up to Unicode case folding; provided the
request URL is in canonical form (escaped path rooted, not scheme-relative
and already clean), the Location is the same URL with the `token` and `t`
parameters removed.  http.Redirect cleans the location's path, so a
non-canonical request path redirects to its cleaned form instead. -/
theorem C6_token_exchange (w : World) (cwd absDir T : String) (req : Request)
    (hT : T ≠ "") (hp : req.path ≠ "/healthz")
    (hq : firstNonEmpty (queryGet req.query "token") (queryGet req.query "t") = T)
    (hc1 : (pathEscapeGo req.path).data.head? = some '/')
    (hc2 : (pathEscapeGo req.path).data.take 2 ≠ ['/', '/'])
    (hc3 : goClean (pathEscapeGo req.path) = pathEscapeGo req.path) :
    (appHandler w cwd T absDir req).status = 302 ∧
    hGet (appHandler w cwd T absDir req).headers "Location" =
      some (urlString req.path
        (encodeQuery (req.query.filter (fun p => !(p.1 == "token" || p.1 == "t"))))) ∧
    (appHandler w cwd T absDir req).cookies =
      [{ name := "frameserve_auth", value := T, path := "/",
         maxAge := 31536000, httpOnly := true,
         sameSite := CookieSameSite.laxMode,
         secure := req.tls ||
           eqFoldHttps (headerGet req.headers "X-Forwarded-Proto") }] := by
  have hg : authGate T req =
      AuthOutcome.redirect (authRedirectLoc req) (mkAuthCookie T req) := by
    rw [authGate_char T req hT hp, if_pos hq]
  rw [app_redirect w cwd T absDir req _ _ hT hg]
  obtain ⟨hrw, hhex⟩ := redirectRewrite_urlString req.path.data req.path
    (encodeQuery (req.query.filter (fun p => !(p.1 == "token" || p.1 == "t"))))
    hc1 hc2 (congrArg String.data hc3) (encodeQuery_good _)
  unfold redirectResp authRedirectLoc mkAuthCookie isProbablyHTTPS
  dsimp only
  rw [hrw, hhex]
  by_cases hm : req.method = "GET"
  · rw [if_pos ⟨by simp [hGet, hFind], hm⟩]
    refine ⟨rfl, ?_, rfl⟩
    rw [hGet_hSet_ne _ _ _ _ (by decide), hGet_hSet_self]
  · rw [if_neg (by rintro ⟨-, h⟩; exact hm h)]
    exact ⟨rfl, hGet_hSet_self _ _ _, rfl⟩

/-- Witness for C6 (amended): the concrete exchange request
`/?a=1&token=secret`, whose path is canonical. -/
theorem C6_token_exchange_witness :
    (appHandler emptyWorld "/" "secret" "/photos" tokenReq).status = 302 ∧
    hGet (appHandler emptyWorld "/" "secret" "/photos" tokenReq).headers
        "Location" =
      some (urlString tokenReq.path
        (encodeQuery (tokenReq.query.filter
          (fun p => !(p.1 == "token" || p.1 == "t"))))) ∧
    (appHandler emptyWorld "/" "secret" "/photos" tokenReq).cookies =
      [{ name := "frameserve_auth", value := "secret", path := "/",
         maxAge := 31536000, httpOnly := true,
         sameSite := CookieSameSite.laxMode,
         secure := tokenReq.tls ||
           eqFoldHttps (headerGet tokenReq.headers "X-Forwarded-Proto") }] :=
  C6_token_exchange emptyWorld "/" "/photos" "secret" tokenReq (by decide)
    (by decide) (by decide) (by decide) (by decide) (by decide)

/-- Counterexample to C6 as stated: on the non-canonical request path
/a//b the exchange redirect's Location is the path.Clean-ed URL /a/b, not
the same URL with the token parameters removed, which would be /a//b. -/
theorem C6_counterexample :
    hGet (appHandler emptyWorld "/" "secret" "/photos"
        ⟨"GET", "/a//b", "token=secret", [("token", "secret")], [], [],
          false⟩).headers "Location" = some "/a/b" ∧
    urlString "/a//b"
      (encodeQuery (([("token", "secret")] : List (String × String)).filter
        (fun p => !(p.1 == "token" || p.1 == "t")))) = "/a//b" ∧
    ("/a/b" : String) ≠ "/a//b" :=
  ⟨by decide, by decide, by decide⟩

/-! ### /healthz -/

theorem dispatch_healthz (w : World) (cwd absDir : String) (req : Request)
    (hs : Headers) (hpath : req.path = "/healthz") :
    muxDispatch w cwd absDir req hs = healthzHandler hs := by
  unfold muxDispatch
  rw [hpath]
  rw [if_neg (by decide), if_neg (by decide), if_pos rfl]

theorem mux_healthz (w : World) (cwd absDir : String) (req : Request)
    (hs : Headers) (hpath : req.path = "/healthz") :
    muxHandler w cwd absDir req hs = healthzHandler hs := by
  unfold muxHandler
  by_cases hm : req.method = "CONNECT"
  · rw [if_pos hm]
    exact dispatch_healthz w cwd absDir req hs hpath
  · rw [if_neg hm]
    dsimp only
    rw [hpath]
    rw [if_neg (by decide), if_neg (by decide)]
    exact dispatch_healthz w cwd absDir req hs hpath

theorem app_healthz (w : World) (cwd token absDir : String) (req : Request)
    (hpath : req.path = "/healthz") :
    appHandler w cwd token absDir req = healthzHandler secInit := by
  have hinner : securityHeadersWrap (muxHandler w cwd absDir) req [] =
      healthzHandler secInit := by
    unfold securityHeadersWrap
    exact mux_healthz w cwd absDir req secInit hpath
  unfold appHandler
  by_cases ht : token = ""
  · rw [if_neg (not_not_intro ht)]
    exact hinner
  · rw [if_pos ht]
    unfold authMiddleware authGate
    rw [if_pos hpath]
    exact hinner

/-- C8: /healthz answers 200 with plain-text body "ok" for every request,
whatever the method, credentials, or auth configuration; and it is the only
route bypassing the auth gate: with auth enabled, any other path without a
matching credential is rejected with 401. -/
theorem C8_healthz (w : World) (cwd token absDir : String) (req : Request) :
    (req.path = "/healthz" →
      (appHandler w cwd token absDir req).status = 200 ∧
      (appHandler w cwd token absDir req).body = "ok" ∧
      hGet (appHandler w cwd token absDir req).headers "Content-Type" =
        some "text/plain; charset=utf-8") ∧
    (token ≠ "" → req.path ≠ "/healthz" →
      firstNonEmpty (queryGet req.query "token") (queryGet req.query "t") ≠ token →
      cookieGet req authCookieName ≠ some token →
      parseBearer (headerGet req.headers "Authorization") ≠ token →
      (appHandler w cwd token absDir req).status = 401) := by
  constructor
  · intro hpath
    rw [app_healthz w cwd token absDir req hpath]
    exact ⟨rfl, rfl, hGet_hSet_self _ _ _⟩
  · intro htok hp hq hc hb
    have hr : authGate token req = AuthOutcome.reject := by
      rw [authGate_char token req htok hp, if_neg hq, if_neg hc, if_neg hb]
    rw [app_reject w cwd token absDir req htok hr]
    rfl

/-- Witness for C8: a POST to /healthz with auth enabled returns 200 "ok";
a GET elsewhere without credentials returns 401. -/
theorem C8_healthz_witness :
    (appHandler emptyWorld "/" "secret" "/photos"
      (bareReq "POST" "/healthz")).status = 200 ∧
    (appHandler emptyWorld "/" "secret" "/photos"
      (bareReq "POST" "/healthz")).body = "ok" ∧
    (appHandler emptyWorld "/" "secret" "/photos"
      (bareReq "GET" "/info")).status = 401 := by
  refine ⟨?_, ?_, ?_⟩
  · exact ((C8_healthz emptyWorld "/" "secret" "/photos"
      (bareReq "POST" "/healthz")).1 (by decide)).1
  · exact ((C8_healthz emptyWorld "/" "secret" "/photos"
      (bareReq "POST" "/healthz")).1 (by decide)).2.1
  · exact (C8_healthz emptyWorld "/" "secret" "/photos"
      (bareReq "GET" "/info")).2 (by decide) (by decide) (by decide)
      (by decide) (by decide)

/-! ### Sorting -/

/-- C9: sortPhotos returns a permutation of its listing for every order
value, so the multiset of (name, mtime, size) tuples in the encoded JSON
response is independent of the requested order (the claim's stated
equivalent of the encode/decode round trip). -/
theorem C9_sort_perm (l : List Photo) (order : String) :
    ((sortPhotos l order).map (fun p => (p.name, p.mtime, p.size))).Perm
      (l.map (fun p => (p.name, p.mtime, p.size))) := by
  have h : (sortPhotos l order).Perm l := by
    unfold sortPhotos sortPhotosBy
    split
    any_goals exact List.perm_insertionSort _ _
  exact h.map _

/-- C7: for every key map standing in for `strings.ToLower` — the property
is proved for each choice of the map, so in particular for Go's Unicode
case map, whose table this development does not reproduce — sortPhotos
sorts by the requested comparator for each of the four order values:
mtime_desc (newest first), mtime_asc, and name_asc / name_desc under
case-insensitive lexical order on the lowered names; and every other value
(including the empty string) produces exactly the mtime_desc result. -/
theorem C7_sort_orders (lower : String → String) (l : List Photo) :
    List.Sorted (fun a b => b.mtime ≤ a.mtime)
      (sortPhotosBy lower l "mtime_desc") ∧
    List.Sorted (fun a b => a.mtime ≤ b.mtime)
      (sortPhotosBy lower l "mtime_asc") ∧
    List.Sorted (fun a b => lower a.name ≤ lower b.name)
      (sortPhotosBy lower l "name_asc") ∧
    List.Sorted (fun a b => lower b.name ≤ lower a.name)
      (sortPhotosBy lower l "name_desc") ∧
    (∀ order : String, order ≠ "mtime_asc" → order ≠ "name_asc" →
      order ≠ "name_desc" →
      sortPhotosBy lower l order = sortPhotosBy lower l "mtime_desc") := by
  refine ⟨?_, ?_, ?_, ?_, ?_⟩
  · haveI : IsTotal Photo (fun a b => b.mtime ≤ a.mtime) :=
      ⟨fun a b => le_total b.mtime a.mtime⟩
    haveI : IsTrans Photo (fun a b => b.mtime ≤ a.mtime) :=
      ⟨fun _ _ _ hab hbc => le_trans hbc hab⟩
    exact List.sorted_insertionSort _ l
  · haveI : IsTotal Photo (fun a b => a.mtime ≤ b.mtime) :=
      ⟨fun a b => le_total a.mtime b.mtime⟩
    haveI : IsTrans Photo (fun a b => a.mtime ≤ b.mtime) :=
      ⟨fun _ _ _ hab hbc => le_trans hab hbc⟩
    exact List.sorted_insertionSort _ l
  · haveI : IsTotal Photo (fun a b => lower a.name ≤ lower b.name) :=
      ⟨fun a b => le_total _ _⟩
    haveI : IsTrans Photo (fun a b => lower a.name ≤ lower b.name) :=
      ⟨fun _ _ _ hab hbc => le_trans hab hbc⟩
    exact List.sorted_insertionSort _ l
  · haveI : IsTotal Photo (fun a b => lower b.name ≤ lower a.name) :=
      ⟨fun a b => le_total _ _⟩
    haveI : IsTrans Photo (fun a b => lower b.name ≤ lower a.name) :=
      ⟨fun _ _ _ hab hbc => le_trans hbc hab⟩
    exact List.sorted_insertionSort _ l
  · intro order h1 h2 h3
    unfold sortPhotosBy
    split
    · exact absurd rfl h1
    · exact absurd rfl h2
    · exact absurd rfl h3
    · rfl

/-- Witness for C7: at the ASCII key map, a concrete unrecognized order
value equals mtime_desc. -/
theorem C7_sort_orders_witness :
    sortPhotosBy sToLower samplePhotos "bogus" =
      sortPhotosBy sToLower samplePhotos "mtime_desc" :=
  (C7_sort_orders sToLower samplePhotos).2.2.2.2 "bogus" (by decide)
    (by decide) (by decide)

/-! ### Configuration from the environment -/

theorem trimSpace_of_allWS (s : String) (h : ∀ c ∈ s.data, goIsSpace c) :
    goTrimSpace s = "" := by
  unfold goTrimSpace trimSpaceL
  have h1 : s.data.dropWhile goIsSpace = [] := List.dropWhile_eq_nil_iff.mpr h
  rw [h1]
  rfl

/-- C10: whitespace-only configuration is the same as unset configuration:
an all-whitespace AUTH_TOKEN yields an empty token (auth disabled),
all-whitespace PORT and PHOTOS_DIR fall back to their defaults, and the
whole server behaves as if AUTH_TOKEN were unset. -/
theorem C10_whitespace_env (env : String → String) :
    ((∀ c ∈ (env "AUTH_TOKEN").data, goIsSpace c) →
      (cfgFromEnv env).authToken = "") ∧
    ((∀ c ∈ (env "PORT").data, goIsSpace c) → (cfgFromEnv env).port = "80") ∧
    ((∀ c ∈ (env "PHOTOS_DIR").data, goIsSpace c) →
      (cfgFromEnv env).photosDir = "/photos") ∧
    ((∀ c ∈ (env "AUTH_TOKEN").data, goIsSpace c) →
      ∀ (w : World) (cwd : String) (req : Request),
        appFromEnv w cwd env req =
          appFromEnv w cwd
            (fun k => if k = "AUTH_TOKEN" then "" else env k) req) := by
  refine ⟨?_, ?_, ?_, ?_⟩
  · intro h
    simp [cfgFromEnv, trimSpace_of_allWS _ h]
  · intro h
    simp [cfgFromEnv, getenv, trimSpace_of_allWS _ h]
  · intro h
    simp [cfgFromEnv, getenv, trimSpace_of_allWS _ h]
  · intro h w cwd req
    have hmod : cfgFromEnv (fun k => if k = "AUTH_TOKEN" then "" else env k) =
        cfgFromEnv env := by
      have ht : goTrimSpace (env "AUTH_TOKEN") = "" := trimSpace_of_allWS _ h
      have ht0 : goTrimSpace "" = "" := rfl
      simp [cfgFromEnv, getenv, ht, ht0]
    unfold appFromEnv
    rw [hmod]

/-- Witness for C10: the all-whitespace environment. -/
theorem C10_whitespace_env_witness :
    (cfgFromEnv (fun _ => " ")).authToken = "" ∧
    (cfgFromEnv (fun _ => " ")).port = "80" ∧
    (cfgFromEnv (fun _ => " ")).photosDir = "/photos" ∧
    appFromEnv emptyWorld "/" (fun _ => " ") (bareReq "GET" "/healthz") =
      appFromEnv emptyWorld "/"
        (fun k => if k = "AUTH_TOKEN" then "" else " ")
        (bareReq "GET" "/healthz") := by
  refine ⟨?_, ?_, ?_, ?_⟩
  · exact (C10_whitespace_env (fun _ => " ")).1 (by decide)
  · exact (C10_whitespace_env (fun _ => " ")).2.1 (by decide)
  · exact (C10_whitespace_env (fun _ => " ")).2.2.1 (by decide)
  · exact (C10_whitespace_env (fun _ => " ")).2.2.2 (by decide) emptyWorld "/"
      (bareReq "GET" "/healthz")

/-! ### Path traversal on the photo endpoint -/

/-- C4: for a GET or HEAD request dispatched to the photo-serving endpoint
whose file name (the path after "/photos/") contains "../", begins with
'/', or contains an embedded backslash, the handler responds 404 with the
generic not-found body, so no file content (inside or outside PHOTOS_DIR)
is served. -/
theorem C4_traversal_404 (w : World) (cwd absDir : String) (req : Request)
    (hs : Headers)
    (hm : req.method = "GET" ∨ req.method = "HEAD")
    (hname : "../".data <:+: (sTrimPfx req.path "/photos/").data ∨
      (sTrimPfx req.path "/photos/").data.head? = some '/' ∨
      '\\' ∈ (sTrimPfx req.path "/photos/").data) :
    (photosHandler w cwd absDir req hs).status = 404 ∧
    (photosHandler w cwd absDir req hs).body = "404 page not found\n" := by
  have hcont : '/' ∈ (sTrimPfx req.path "/photos/").data ∨
      '\\' ∈ (sTrimPfx req.path "/photos/").data := by
    rcases hname with h | h | h
    · exact Or.inl (h.sublist.subset (by decide))
    · exact Or.inl (List.mem_of_mem_head? (Option.mem_def.mpr h))
    · exact Or.inr h
  have hne : ¬(sTrimPfx req.path "/photos/" = "") := by
    intro he
    have : (sTrimPfx req.path "/photos/").data = [] := by rw [he]
    rcases hcont with h | h <;> simp [this] at h
  have hmcond : ¬(req.method ≠ "GET" ∧ req.method ≠ "HEAD") := by
    rintro ⟨h1, h2⟩
    rcases hm with h | h
    · exact h1 h
    · exact h2 h
  have hccond : sContainsChar (sTrimPfx req.path "/photos/") '/' = true ∨
      sContainsChar (sTrimPfx req.path "/photos/") '\\' = true := by
    rcases hcont with h | h
    · exact Or.inl (by simpa [sContainsChar, List.contains] using List.elem_iff.mpr h)
    · exact Or.inr (by simpa [sContainsChar, List.contains] using List.elem_iff.mpr h)
  unfold photosHandler
  rw [if_neg hmcond]
  dsimp only
  rw [if_neg hne, if_pos hccond]
  exact ⟨rfl, rfl⟩

/-- Witness for C4: the three concrete bad names, tried through the handler
on a GET request. -/
theorem C4_traversal_404_witness :
    (photosHandler emptyWorld "/" "/photos"
      (bareReq "GET" "/photos/../secret.jpg") []).status = 404 ∧
    (photosHandler emptyWorld "/" "/photos"
      (bareReq "GET" "/photos//etc/x.png") []).status = 404 ∧
    (photosHandler emptyWorld "/" "/photos"
      (bareReq "GET" "/photos/a\\b.gif") []).status = 404 := by
  refine ⟨?_, ?_, ?_⟩
  · exact (C4_traversal_404 emptyWorld "/" "/photos"
      (bareReq "GET" "/photos/../secret.jpg") [] (Or.inl rfl)
      (Or.inl (by decide))).1
  · exact (C4_traversal_404 emptyWorld "/" "/photos"
      (bareReq "GET" "/photos//etc/x.png") [] (Or.inl rfl)
      (Or.inr (Or.inl (by decide)))).1
  · exact (C4_traversal_404 emptyWorld "/" "/photos"
      (bareReq "GET" "/photos/a\\b.gif") [] (Or.inl rfl)
      (Or.inr (Or.inr (by decide)))).1

/-! ### Splitting and joining path segments -/

theorem splitOnSlash_ne_nil (s : List Char) : splitOnSlash s ≠ [] := by
  cases s with
  | nil => simp [splitOnSlash]
  | cons c cs =>
    unfold splitOnSlash
    by_cases h : c = '/'
    · simp [h]
    · rw [if_neg h]
      cases hs : splitOnSlash cs <;> simp

theorem mem_splitOnSlash_no_slash (s : List Char) :
    ∀ seg ∈ splitOnSlash s, '/' ∉ seg := by
  induction s with
  | nil =>
    intro seg h
    simp [splitOnSlash] at h
    simp [h]
  | cons c cs ih =>
    intro seg hm
    unfold splitOnSlash at hm
    by_cases h : c = '/'
    · rw [if_pos h] at hm
      rcases List.mem_cons.mp hm with he | he
      · simp [he]
      · exact ih seg he
    · rw [if_neg h] at hm
      cases hs : splitOnSlash cs with
      | nil => exact absurd hs (splitOnSlash_ne_nil cs)
      | cons s0 ss =>
        rw [hs] at hm
        rcases List.mem_cons.mp hm with he | he
        · subst he
          intro hmem
          rcases List.mem_cons.mp hmem with h1 | h1
          · exact h h1.symm
          · exact ih s0 (by rw [hs]; exact List.mem_cons_self _ _) h1
        · exact ih seg (by rw [hs]; exact List.mem_cons_of_mem _ he)

theorem splitOnSlash_append (a b : List Char) :
    splitOnSlash (a ++ '/' :: b) = splitOnSlash a ++ splitOnSlash b := by
  induction a with
  | nil => simp [splitOnSlash]
  | cons c cs ih =>
    show splitOnSlash (c :: (cs ++ '/' :: b)) =
      splitOnSlash (c :: cs) ++ splitOnSlash b
    simp only [splitOnSlash, ih]
    by_cases h : c = '/'
    · rw [if_pos h, if_pos h]
      show [] :: (splitOnSlash cs ++ splitOnSlash b) =
        ([] :: splitOnSlash cs) ++ splitOnSlash b
      exact (List.cons_append _ _ _).symm
    · rw [if_neg h, if_neg h]
      cases hs : splitOnSlash cs with
      | nil => exact absurd hs (splitOnSlash_ne_nil cs)
      | cons s0 ss =>
        show (c :: s0) :: (ss ++ splitOnSlash b) =
          ((c :: s0) :: ss) ++ splitOnSlash b
        exact (List.cons_append _ _ _).symm

theorem splitOnSlash_no_slash (a : List Char) (h : '/' ∉ a) :
    splitOnSlash a = [a] := by
  induction a with
  | nil => rfl
  | cons c cs ih =>
    have hc : ¬(c = '/') := fun e => h (by simp [e])
    have hcs : '/' ∉ cs := fun hm => h (List.mem_cons_of_mem _ hm)
    unfold splitOnSlash
    rw [if_neg hc, ih hcs]

theorem splitOnSlash_intercalate (S : List (List Char)) (hne : S ≠ [])
    (h : ∀ seg ∈ S, '/' ∉ seg) :
    splitOnSlash (intercalateSlash S) = S := by
  induction S with
  | nil => exact absurd rfl hne
  | cons s0 ss ih =>
    cases ss with
    | nil =>
      exact splitOnSlash_no_slash s0 (h s0 (List.mem_cons_self _ _))
    | cons s1 ss' =>
      have he : intercalateSlash (s0 :: s1 :: ss') =
          s0 ++ '/' :: intercalateSlash (s1 :: ss') := rfl
      rw [he, splitOnSlash_append,
        splitOnSlash_no_slash s0 (h s0 (List.mem_cons_self _ _)),
        ih (by simp) (fun seg hm => h seg (List.mem_cons_of_mem _ hm))]
      rfl

theorem intercalateSlash_snoc (S : List (List Char)) (x : List Char)
    (hne : S ≠ []) :
    intercalateSlash (S ++ [x]) = intercalateSlash S ++ '/' :: x := by
  induction S with
  | nil => exact absurd rfl hne
  | cons s0 ss ih =>
    cases ss with
    | nil => rfl
    | cons s1 ss' =>
      have h1 : intercalateSlash ((s0 :: s1 :: ss') ++ [x]) =
          s0 ++ '/' :: intercalateSlash ((s1 :: ss') ++ [x]) := rfl
      have h2 : intercalateSlash (s0 :: s1 :: ss') =
          s0 ++ '/' :: intercalateSlash (s1 :: ss') := rfl
      rw [h1, ih (by simp), h2]
      simp

theorem intercalateSlash_ne_nil (S : List (List Char)) (hS0 : S ≠ [])
    (h : ∀ x ∈ S, x ≠ []) : intercalateSlash S ≠ [] := by
  cases S with
  | nil => exact absurd rfl hS0
  | cons s0 ss =>
    cases ss with
    | nil => exact h s0 (List.mem_cons_self _ _)
    | cons s1 ss' =>
      have he : intercalateSlash (s0 :: s1 :: ss') =
          s0 ++ '/' :: intercalateSlash (s1 :: ss') := rfl
      rw [he]
      simp

/-! ### The Clean segment stack -/

theorem cleanStep_plain (r : Bool) (acc : List (List Char)) (seg : List Char)
    (h : PlainSeg seg) : cleanStep r acc seg = seg :: acc := by
  obtain ⟨h1, h2, h3, h4⟩ := h
  unfold cleanStep
  rw [if_neg (not_or.mpr ⟨h1, h3⟩), if_neg h4]

theorem cleanStep_empty (r : Bool) (acc : List (List Char)) :
    cleanStep r acc [] = acc := by
  unfold cleanStep
  rw [if_pos (Or.inl rfl)]

theorem cleanStep_dot (r : Bool) (acc : List (List Char)) :
    cleanStep r acc ['.'] = acc := by
  unfold cleanStep
  rw [if_pos (Or.inr rfl)]

theorem foldl_cleanStep_plain (r : Bool) (segs : List (List Char))
    (h : ∀ seg ∈ segs, PlainSeg seg) :
    ∀ acc, List.foldl (cleanStep r) acc segs = segs.reverse ++ acc := by
  induction segs with
  | nil => intro acc; simp
  | cons s0 ss ih =>
    intro acc
    rw [List.foldl_cons, cleanStep_plain r acc s0 (h s0 (List.mem_cons_self _ _)),
      ih (fun seg hm => h seg (List.mem_cons_of_mem _ hm))]
    simp

theorem foldl_cleanStep_rooted_plain (segs : List (List Char))
    (hs : ∀ seg ∈ segs, '/' ∉ seg) :
    ∀ acc, (∀ x ∈ acc, PlainSeg x) →
      ∀ x ∈ List.foldl (cleanStep true) acc segs, PlainSeg x := by
  induction segs with
  | nil =>
    intro acc hacc x hx
    exact hacc x hx
  | cons s0 ss ih =>
    intro acc hacc x hx
    rw [List.foldl_cons] at hx
    refine ih (fun seg hm => hs seg (List.mem_cons_of_mem _ hm)) _ ?_ x hx
    intro y hy
    unfold cleanStep at hy
    by_cases h1 : s0 = [] ∨ s0 = ['.']
    · rw [if_pos h1] at hy
      exact hacc y hy
    · rw [if_neg h1] at hy
      by_cases h2 : s0 = ['.', '.']
      · rw [if_pos h2] at hy
        cases acc with
        | nil => simp at hy
        | cons top acc' =>
          have htop := hacc top (List.mem_cons_self _ _)
          dsimp only at hy
          rw [if_neg htop.2.2.2] at hy
          exact hacc y (List.mem_cons_of_mem _ hy)
      · rw [if_neg h2] at hy
        rcases List.mem_cons.mp hy with he | he
        · rw [he]
          exact ⟨fun e => h1 (Or.inl e), hs s0 (List.mem_cons_self _ _),
            fun e => h1 (Or.inr e), h2⟩
        · exact hacc y he

theorem rootStack_plain (s : List Char) : ∀ x ∈ rootStack s, PlainSeg x := by
  intro x hx
  unfold rootStack cleanStack at hx
  rw [List.mem_reverse] at hx
  exact foldl_cleanStep_rooted_plain (splitOnSlash s)
    (mem_splitOnSlash_no_slash s) [] (by simp) x hx

theorem foldl_cleanStep_unrooted (segs : List (List Char))
    (hs : ∀ seg ∈ segs, '/' ∉ seg) :
    ∀ acc, (∀ x ∈ acc, (PlainSeg x ∨ x = ['.', '.'])) →
      ∀ x ∈ List.foldl (cleanStep false) acc segs,
        PlainSeg x ∨ x = ['.', '.'] := by
  induction segs with
  | nil =>
    intro acc hacc x hx
    exact hacc x hx
  | cons s0 ss ih =>
    intro acc hacc x hx
    rw [List.foldl_cons] at hx
    refine ih (fun seg hm => hs seg (List.mem_cons_of_mem _ hm)) _ ?_ x hx
    intro y hy
    unfold cleanStep at hy
    by_cases h1 : s0 = [] ∨ s0 = ['.']
    · rw [if_pos h1] at hy
      exact hacc y hy
    · rw [if_neg h1] at hy
      by_cases h2 : s0 = ['.', '.']
      · rw [if_pos h2] at hy
        cases acc with
        | nil =>
          simp at hy
          exact Or.inr (by rw [hy])
        | cons top acc' =>
          dsimp only at hy
          by_cases h3 : top = ['.', '.']
          · rw [if_pos h3] at hy
            rcases List.mem_cons.mp hy with he | he
            · exact Or.inr (by rw [he, h2])
            · exact hacc y he
          · rw [if_neg h3] at hy
            exact hacc y (List.mem_cons_of_mem _ hy)
      · rw [if_neg h2] at hy
        rcases List.mem_cons.mp hy with he | he
        · rw [he]
          exact Or.inl ⟨fun e => h1 (Or.inl e), hs s0 (List.mem_cons_self _ _),
            fun e => h1 (Or.inr e), h2⟩
        · exact hacc y he

/-! ### Canonical rooted paths -/

theorem canonAbs_head (S : List (List Char)) :
    (canonAbs S).head? = some '/' := by
  unfold canonAbs
  split <;> rfl

theorem goCleanL_rooted (s : List Char) (h : s.head? = some '/') :
    goCleanL s = canonAbs (rootStack s) := by
  have hne : s ≠ [] := by
    cases s with
    | nil => simp at h
    | cons c cs => simp
  unfold goCleanL canonAbs rootStack cleanStack
  rw [if_neg hne]
  dsimp only
  rw [decide_eq_true h]
  rfl

theorem goCleanL_canonAbs (S : List (List Char))
    (hS : ∀ x ∈ S, PlainSeg x) : goCleanL (canonAbs S) = canonAbs S := by
  cases S with
  | nil => rfl
  | cons s0 ss =>
    have hca : canonAbs (s0 :: ss) = '/' :: intercalateSlash (s0 :: ss) := by
      unfold canonAbs
      rw [if_neg (by simp)]
    rw [hca]
    have hhead : ('/' :: intercalateSlash (s0 :: ss)).head? = some '/' := rfl
    rw [goCleanL_rooted _ hhead]
    unfold rootStack cleanStack
    have h1 : splitOnSlash ('/' :: intercalateSlash (s0 :: ss)) =
        [] :: splitOnSlash (intercalateSlash (s0 :: ss)) := rfl
    rw [h1, splitOnSlash_intercalate _ (by simp)
      (fun seg hm => (hS seg hm).2.1)]
    rw [List.foldl_cons, cleanStep_empty, foldl_cleanStep_plain true _ hS []]
    unfold canonAbs
    simp

theorem goCleanL_child (base seg : List Char) (hb : base.head? = some '/')
    (hseg : PlainSeg seg) :
    goCleanL (base ++ '/' :: seg) = canonAbs (rootStack base ++ [seg]) := by
  have hhead : (base ++ '/' :: seg).head? = some '/' := by
    cases base with
    | nil => simp at hb
    | cons c cs => simpa using hb
  rw [goCleanL_rooted _ hhead]
  congr 1
  unfold rootStack cleanStack
  rw [splitOnSlash_append, splitOnSlash_no_slash seg hseg.2.1,
    List.foldl_append]
  simp only [List.foldl_cons, List.foldl_nil]
  rw [cleanStep_plain true _ seg hseg]
  simp

theorem goCleanL_dotSuffix (base : List Char) (hb : base.head? = some '/') :
    goCleanL (base ++ '/' :: ['.']) = canonAbs (rootStack base) := by
  have hhead : (base ++ '/' :: ['.']).head? = some '/' := by
    cases base with
    | nil => simp at hb
    | cons c cs => simpa using hb
  rw [goCleanL_rooted _ hhead]
  congr 1
  unfold rootStack cleanStack
  rw [splitOnSlash_append, splitOnSlash_no_slash ['.'] (by decide),
    List.foldl_append]
  simp only [List.foldl_cons, List.foldl_nil]
  rw [cleanStep_dot]

theorem goCleanL_slashSuffix (base : List Char) (hb : base.head? = some '/') :
    goCleanL (base ++ '/' :: ['/']) = canonAbs (rootStack base) := by
  have hhead : (base ++ '/' :: ['/']).head? = some '/' := by
    cases base with
    | nil => simp at hb
    | cons c cs => simpa using hb
  rw [goCleanL_rooted _ hhead]
  congr 1
  unfold rootStack cleanStack
  have h1 : splitOnSlash ['/'] = [[], []] := rfl
  rw [splitOnSlash_append, h1, List.foldl_append]
  simp only [List.foldl_cons, List.foldl_nil]
  rw [cleanStep_empty, cleanStep_empty]

theorem goCleanL_dotdotSuffix (base : List Char)
    (hb : base.head? = some '/') :
    goCleanL (base ++ '/' :: ['.', '.']) =
      canonAbs ((rootStack base).dropLast) := by
  have hhead : (base ++ '/' :: ['.', '.']).head? = some '/' := by
    cases base with
    | nil => simp at hb
    | cons c cs => simpa using hb
  rw [goCleanL_rooted _ hhead]
  congr 1
  have hstack : rootStack (base ++ '/' :: ['.', '.']) =
      ((cleanStack true (splitOnSlash base)).reverse).dropLast := by
    unfold rootStack cleanStack
    rw [splitOnSlash_append, splitOnSlash_no_slash ['.', '.'] (by decide),
      List.foldl_append]
    simp only [List.foldl_cons, List.foldl_nil]
    rcases List.eq_nil_or_concat'
        ((List.foldl (cleanStep true) [] (splitOnSlash base)).reverse) with
      hc | ⟨S0, b, hc⟩
    · have hz : List.foldl (cleanStep true) [] (splitOnSlash base) = [] := by
        simpa using congrArg List.reverse hc
      rw [hz]
      rfl
    · have hz : List.foldl (cleanStep true) [] (splitOnSlash base) =
          b :: S0.reverse := by
        have h' := congrArg List.reverse hc
        simpa using h'
      have hplain : PlainSeg b := by
        refine rootStack_plain base b ?_
        unfold rootStack cleanStack
        rw [hc]
        simp
      rw [hz]
      unfold cleanStep
      rw [if_neg (by decide), if_pos rfl]
      dsimp only
      rw [if_neg hplain.2.2.2]
      simp
  rw [hstack]
  rfl

theorem canonAbs_ne_nil (S : List (List Char)) : canonAbs S ≠ [] := by
  unfold canonAbs
  split <;> simp

theorem canonAbs_ne_dot (S : List (List Char)) : canonAbs S ≠ ['.'] := by
  unfold canonAbs
  split
  · decide
  · simp

theorem rootStack_canonAbs (S : List (List Char))
    (hS : ∀ x ∈ S, PlainSeg x) : rootStack (canonAbs S) = S := by
  cases S with
  | nil => rfl
  | cons s0 ss =>
    have hca : canonAbs (s0 :: ss) = '/' :: intercalateSlash (s0 :: ss) := by
      unfold canonAbs
      rw [if_neg (by simp)]
    rw [hca]
    unfold rootStack cleanStack
    have h1 : splitOnSlash ('/' :: intercalateSlash (s0 :: ss)) =
        [] :: splitOnSlash (intercalateSlash (s0 :: ss)) := rfl
    rw [h1, splitOnSlash_intercalate _ (by simp)
      (fun seg hm => (hS seg hm).2.1)]
    rw [List.foldl_cons, cleanStep_empty, foldl_cleanStep_plain true _ hS []]
    simp

theorem canonAbs_ne_snoc (S : List (List Char)) (seg : List Char)
    (hseg : PlainSeg seg) : canonAbs S ≠ canonAbs (S ++ [seg]) := by
  cases S with
  | nil =>
    intro h
    have h2 : canonAbs ([] ++ [seg]) = '/' :: intercalateSlash [seg] := by
      unfold canonAbs
      rw [if_neg (by simp)]
      rfl
    rw [h2] at h
    have h3 : (['/'] : List Char) = '/' :: seg := h
    exact hseg.1 (by injection h3 with _ h'; exact h'.symm)
  | cons s0 ss =>
    intro h
    have hA : canonAbs (s0 :: ss) = '/' :: intercalateSlash (s0 :: ss) := by
      unfold canonAbs
      rw [if_neg (by simp)]
    have hB : canonAbs ((s0 :: ss) ++ [seg]) =
        '/' :: intercalateSlash ((s0 :: ss) ++ [seg]) := by
      unfold canonAbs
      rw [if_neg (by simp)]
    rw [hA, hB, intercalateSlash_snoc _ _ (by simp)] at h
    have h' : intercalateSlash (s0 :: ss) =
        intercalateSlash (s0 :: ss) ++ '/' :: seg := by
      injection h
    rw [List.self_eq_append_right] at h'
    exact List.cons_ne_nil _ _ h'

theorem canonAbs_snoc (S : List (List Char)) (seg : List Char)
    (h : ∀ x ∈ S, x ≠ []) :
    canonAbs (S ++ [seg]) = childPathL (canonAbs S) seg := by
  cases S with
  | nil =>
    unfold canonAbs childPathL
    rw [if_neg (by simp), if_pos (by rw [if_pos rfl])]
    rfl
  | cons s0 ss =>
    have hne : intercalateSlash (s0 :: ss) ≠ [] :=
      intercalateSlash_ne_nil _ (by simp) h
    unfold canonAbs childPathL
    rw [if_neg (by simp : ¬((s0 :: ss) ++ [seg] = [])),
      if_neg (by simp : ¬(s0 :: ss = [])),
      if_neg (fun e => hne (by injection e)),
      intercalateSlash_snoc _ _ (by simp)]
    simp

/-! ### Rel on canonical paths -/

theorem relChunks_canonAbs (S : List (List Char))
    (hS : ∀ x ∈ S, PlainSeg x) : relChunks (canonAbs S) = S := by
  cases S with
  | nil => rfl
  | cons s0 ss =>
    have hca : canonAbs (s0 :: ss) = '/' :: intercalateSlash (s0 :: ss) := by
      unfold canonAbs
      rw [if_neg (by simp)]
    rw [hca]
    have h1 : relChunks ('/' :: intercalateSlash (s0 :: ss)) =
        if intercalateSlash (s0 :: ss) = [] then []
        else splitOnSlash (intercalateSlash (s0 :: ss)) := rfl
    rw [h1,
      if_neg (intercalateSlash_ne_nil _ (by simp) (fun x hm => (hS x hm).1)),
      splitOnSlash_intercalate _ (by simp) (fun x hm => (hS x hm).2.1)]

theorem dropCommon_append (S t : List (List Char)) :
    dropCommon S (S ++ t) = ([], t) := by
  induction S with
  | nil =>
    cases t with
    | nil => rfl
    | cons b bs => rfl
  | cons a as' ih =>
    show dropCommon (a :: as') (a :: (as' ++ t)) = ([], t)
    unfold dropCommon
    rw [if_pos rfl]
    exact ih

theorem dropCommon_append_left (S t : List (List Char)) :
    dropCommon (S ++ t) S = (t, []) := by
  induction S with
  | nil =>
    cases t with
    | nil => rfl
    | cons b bs => rfl
  | cons a as' ih =>
    show dropCommon (a :: (as' ++ t)) (a :: as') = (t, [])
    unfold dropCommon
    rw [if_pos rfl]
    exact ih

theorem goRelL_self (p : List Char) : goRelL p p = some ['.'] := by
  unfold goRelL
  simp

theorem goRelL_child (S : List (List Char)) (seg : List Char)
    (hS : ∀ x ∈ S, PlainSeg x) (hseg : PlainSeg seg) :
    goRelL (canonAbs S) (canonAbs (S ++ [seg])) = some seg := by
  have hS' : ∀ x ∈ S ++ [seg], PlainSeg x := by
    intro x hx
    rcases List.mem_append.mp hx with h | h
    · exact hS x h
    · rw [List.mem_singleton.mp h]
      exact hseg
  unfold goRelL
  rw [goCleanL_canonAbs S hS, goCleanL_canonAbs _ hS']
  rw [if_neg (fun e => canonAbs_ne_snoc S seg hseg e.symm)]
  dsimp only
  rw [if_neg (canonAbs_ne_dot S)]
  rw [decide_eq_true (canonAbs_head S),
    decide_eq_true (canonAbs_head (S ++ [seg]))]
  rw [if_neg (by simp)]
  rw [relChunks_canonAbs S hS, relChunks_canonAbs _ hS', dropCommon_append]
  rfl

theorem goRelL_parent (S : List (List Char)) (b : List Char)
    (hS : ∀ x ∈ S, PlainSeg x) (hb : PlainSeg b) :
    goRelL (canonAbs (S ++ [b])) (canonAbs S) = some ['.', '.'] := by
  have hS' : ∀ x ∈ S ++ [b], PlainSeg x := by
    intro x hx
    rcases List.mem_append.mp hx with h | h
    · exact hS x h
    · rw [List.mem_singleton.mp h]
      exact hb
  unfold goRelL
  rw [goCleanL_canonAbs S hS, goCleanL_canonAbs _ hS']
  rw [if_neg (canonAbs_ne_snoc S b hb)]
  dsimp only
  rw [if_neg (canonAbs_ne_dot _)]
  rw [decide_eq_true (canonAbs_head (S ++ [b])),
    decide_eq_true (canonAbs_head S)]
  rw [if_neg (by simp)]
  rw [relChunks_canonAbs S hS, relChunks_canonAbs _ hS',
    dropCommon_append_left]
  dsimp only
  rw [if_neg hb.2.2.2]
  rfl

/-! ### Abs, Join and Base on canonical paths -/

theorem goAbsL_canonAbs (cwd : List Char) (S : List (List Char))
    (hS : ∀ x ∈ S, PlainSeg x) : goAbsL cwd (canonAbs S) = canonAbs S := by
  unfold goAbsL
  rw [if_pos (canonAbs_head S), goCleanL_canonAbs S hS]

theorem cleanAbs_canon (base : List Char) (hb : CleanAbsL base) :
    base = canonAbs (rootStack base) := by
  conv_lhs => rw [← hb.2]
  exact goCleanL_rooted base hb.1

theorem cleanAbs_ne_nil (base : List Char) (hb : CleanAbsL base) :
    base ≠ [] := by
  intro h
  rw [h] at hb
  simp [CleanAbsL] at hb

theorem goAbsL_cleanAbs (cwd base : List Char) (hb : CleanAbsL base) :
    goAbsL cwd base = base := by
  unfold goAbsL
  rw [if_pos hb.1, hb.2]

theorem goJoin2L_suffix (base c : List Char) (hbne : base ≠ [])
    (hcne : c ≠ []) : goJoin2L base c = goCleanL (base ++ '/' :: c) := by
  unfold goJoin2L
  rw [if_neg (by rintro ⟨h, -⟩; exact hbne h), if_neg hbne, if_neg hcne]

theorem goBaseL_mem_of_intercalate (S : List (List Char)) (hne : S ≠ [])
    (h1 : ∀ x ∈ S, x ≠ []) (h2 : ∀ x ∈ S, '/' ∉ x) :
    goBaseL ('/' :: intercalateSlash S) ∈ S ∧
      goBaseL (intercalateSlash S) ∈ S := by
  have hi : intercalateSlash S ≠ [] := intercalateSlash_ne_nil S hne h1
  have hsplit : splitOnSlash (intercalateSlash S) = S :=
    splitOnSlash_intercalate S hne h2
  have hfS : S.filter (fun seg => !seg.isEmpty) = S := by
    apply List.filter_eq_self.mpr
    intro a ha
    simpa [List.isEmpty_iff] using h1 a ha
  have hstep : splitOnSlash ('/' :: intercalateSlash S) =
      [] :: splitOnSlash (intercalateSlash S) := rfl
  constructor
  · unfold goBaseL
    rw [if_neg (by simp), hstep, hsplit,
      List.filter_cons_of_neg (by simp), hfS]
    cases hg : S.getLast? with
    | none => exact absurd (List.getLast?_eq_none_iff.mp hg) hne
    | some last => exact List.mem_of_getLast?_eq_some hg
  · unfold goBaseL
    rw [if_neg hi, hsplit, hfS]
    cases hg : S.getLast? with
    | none => exact absurd (List.getLast?_eq_none_iff.mp hg) hne
    | some last => exact List.mem_of_getLast?_eq_some hg

/-- The normalized final segment `safeJoin` computes is always ".", "/",
".." or a plain segment. -/
theorem clean_base_cases (f : List Char) (hf : f ≠ []) :
    goBaseL (goCleanL f) = ['.'] ∨ goBaseL (goCleanL f) = ['/'] ∨
    goBaseL (goCleanL f) = ['.', '.'] ∨ PlainSeg (goBaseL (goCleanL f)) := by
  by_cases hr : f.head? = some '/'
  · rw [goCleanL_rooted f hr]
    have hS := rootStack_plain f
    cases hSe : rootStack f with
    | nil => exact Or.inr (Or.inl rfl)
    | cons s0 ss =>
      rw [hSe] at hS
      have hca : canonAbs (s0 :: ss) = '/' :: intercalateSlash (s0 :: ss) := by
        unfold canonAbs
        rw [if_neg (by simp)]
      rw [hca]
      have hmem := (goBaseL_mem_of_intercalate (s0 :: ss) (by simp)
        (fun x hx => (hS x hx).1) (fun x hx => (hS x hx).2.1)).1
      exact Or.inr (Or.inr (Or.inr (hS _ hmem)))
  · unfold goCleanL
    rw [if_neg hf]
    dsimp only
    rw [decide_eq_false hr]
    have hmm := foldl_cleanStep_unrooted (splitOnSlash f)
      (mem_splitOnSlash_no_slash f) [] (by simp)
    cases hSe : (List.foldl (cleanStep false) [] (splitOnSlash f)).reverse with
    | nil =>
      rw [show cleanStack false (splitOnSlash f) =
        List.foldl (cleanStep false) [] (splitOnSlash f) from rfl, hSe]
      exact Or.inl rfl
    | cons s0 ss =>
      rw [show cleanStack false (splitOnSlash f) =
        List.foldl (cleanStep false) [] (splitOnSlash f) from rfl, hSe]
      rw [if_neg (by simp)]
      have hS : ∀ x ∈ s0 :: ss, PlainSeg x ∨ x = ['.', '.'] := by
        intro x hx
        refine hmm x ?_
        rw [← List.mem_reverse, hSe]
        exact hx
      have hS1 : ∀ x ∈ s0 :: ss, x ≠ [] := by
        intro x hx
        rcases hS x hx with h | h
        · exact h.1
        · rw [h]
          simp
      have hS2 : ∀ x ∈ s0 :: ss, '/' ∉ x := by
        intro x hx
        rcases hS x hx with h | h
        · exact h.2.1
        · rw [h]
          decide
      have hmem := (goBaseL_mem_of_intercalate (s0 :: ss) (by simp)
        hS1 hS2).2
      have hfalse : (if (false = true) then (['/'] : List Char) else []) = [] := by
        simp
      rw [hfalse]
      rw [List.nil_append]
      rcases hS _ hmem with h | h
      · exact Or.inr (Or.inr (Or.inr h))
      · exact Or.inr (Or.inr (Or.inl h))

/-! ### safeJoin case analysis -/

theorem safeJoinL_expand (cwd base f : List Char) (hf : f ≠ []) :
    safeJoinL cwd base f =
      (match goRelL (goAbsL cwd base)
          (goAbsL cwd (goJoin2L base (goBaseL (goCleanL f)))) with
      | none => none
      | some rel =>
        if ['.', '.', '/'].isPrefixOf rel ∨ rel = ['.', '.'] then none
        else some (goAbsL cwd (goJoin2L base (goBaseL (goCleanL f))))) := by
  unfold safeJoinL
  rw [if_neg hf]

theorem not_bad_rel (c : List Char) (hc : PlainSeg c) :
    ¬((['.', '.', '/'].isPrefixOf c = true) ∨ c = ['.', '.']) := by
  rintro (h | h)
  · have hp : ['.', '.', '/'] <+: c := List.isPrefixOf_iff_prefix.mp h
    exact hc.2.1 (hp.sublist.subset (by decide))
  · exact hc.2.2.2 h

theorem safeJoinL_dot_core (cwd : List Char) (S : List (List Char))
    (f : List Char) (hS : ∀ x ∈ S, PlainSeg x) (hf : f ≠ [])
    (hc : goBaseL (goCleanL f) = ['.']) :
    safeJoinL cwd (canonAbs S) f = some (canonAbs S) := by
  rw [safeJoinL_expand cwd _ f hf, hc,
    goJoin2L_suffix _ _ (canonAbs_ne_nil S) (by decide),
    goCleanL_dotSuffix _ (canonAbs_head S), rootStack_canonAbs S hS,
    goAbsL_canonAbs cwd S hS, goRelL_self]
  dsimp only
  rw [if_neg (by decide)]

theorem safeJoinL_slash_core (cwd : List Char) (S : List (List Char))
    (f : List Char) (hS : ∀ x ∈ S, PlainSeg x) (hf : f ≠ [])
    (hc : goBaseL (goCleanL f) = ['/']) :
    safeJoinL cwd (canonAbs S) f = some (canonAbs S) := by
  rw [safeJoinL_expand cwd _ f hf, hc,
    goJoin2L_suffix _ _ (canonAbs_ne_nil S) (by decide),
    goCleanL_slashSuffix _ (canonAbs_head S), rootStack_canonAbs S hS,
    goAbsL_canonAbs cwd S hS, goRelL_self]
  dsimp only
  rw [if_neg (by decide)]

theorem safeJoinL_dotdot_core (cwd : List Char) (S : List (List Char))
    (f : List Char) (hS : ∀ x ∈ S, PlainSeg x) (hf : f ≠ [])
    (hc : goBaseL (goCleanL f) = ['.', '.']) :
    safeJoinL cwd (canonAbs S) f =
      (if S = [] then some (canonAbs S) else none) := by
  rw [safeJoinL_expand cwd _ f hf, hc,
    goJoin2L_suffix _ _ (canonAbs_ne_nil S) (by decide),
    goCleanL_dotdotSuffix _ (canonAbs_head S), rootStack_canonAbs S hS,
    goAbsL_canonAbs cwd S hS]
  rcases List.eq_nil_or_concat' S with hSe | ⟨S0, b, hSe⟩
  · subst hSe
    rw [if_pos rfl]
    rw [show (List.dropLast ([] : List (List Char))) = [] from rfl]
    rw [goAbsL_canonAbs cwd [] (by simp), goRelL_self]
    dsimp only
    rw [if_neg (by decide)]
  · subst hSe
    rw [if_neg (by simp)]
    rw [List.dropLast_concat]
    have hS0 : ∀ x ∈ S0, PlainSeg x := fun x hx =>
      hS x (List.mem_append.mpr (Or.inl hx))
    have hb : PlainSeg b := hS b (List.mem_append.mpr (Or.inr (by simp)))
    rw [goAbsL_canonAbs cwd S0 hS0, goRelL_parent S0 b hS0 hb]
    dsimp only
    rw [if_pos (Or.inr rfl)]

theorem safeJoinL_plain_core (cwd : List Char) (S : List (List Char))
    (f c : List Char) (hS : ∀ x ∈ S, PlainSeg x) (hf : f ≠ [])
    (hc : goBaseL (goCleanL f) = c) (hcp : PlainSeg c) :
    safeJoinL cwd (canonAbs S) f = some (childPathL (canonAbs S) c) := by
  have hS' : ∀ x ∈ S ++ [c], PlainSeg x := by
    intro x hx
    rcases List.mem_append.mp hx with h | h
    · exact hS x h
    · rw [List.mem_singleton.mp h]
      exact hcp
  rw [safeJoinL_expand cwd _ f hf, hc,
    goJoin2L_suffix _ _ (canonAbs_ne_nil S) hcp.1,
    goCleanL_child _ c (canonAbs_head S) hcp, rootStack_canonAbs S hS,
    goAbsL_canonAbs cwd S hS, goAbsL_canonAbs cwd (S ++ [c]) hS',
    goRelL_child S c hS hcp]
  dsimp only
  rw [if_neg (not_bad_rel c hcp), canonAbs_snoc S c (fun x hx => (hS x hx).1)]

/-- The full case analysis of `safeJoin` over a clean absolute base. -/
theorem safeJoinL_sound (cwd base f : List Char) (hb : CleanAbsL base) :
    (f = [] → safeJoinL cwd base f = none) ∧
    (safeJoinL cwd base f = none ∨ safeJoinL cwd base f = some base ∨
      ∃ seg, PlainSeg seg ∧
        safeJoinL cwd base f = some (childPathL base seg)) ∧
    (safeJoinL cwd base f = none →
      f = [] ∨ goBaseL (goCleanL f) = ['.', '.']) := by
  by_cases hf : f = []
  · have hempty : safeJoinL cwd base f = none := by
      unfold safeJoinL
      rw [if_pos hf]
    exact ⟨fun _ => hempty, Or.inl hempty, fun _ => Or.inl hf⟩
  · obtain ⟨S, hplain, hbase⟩ :
        ∃ S, (∀ x ∈ S, PlainSeg x) ∧ base = canonAbs S :=
      ⟨rootStack base, rootStack_plain base, cleanAbs_canon base hb⟩
    subst hbase
    rcases clean_base_cases f hf with hc | hc | hc | hc
    · rw [safeJoinL_dot_core cwd S f hplain hf hc]
      exact ⟨fun h => absurd h hf, Or.inr (Or.inl rfl), by simp⟩
    · rw [safeJoinL_slash_core cwd S f hplain hf hc]
      exact ⟨fun h => absurd h hf, Or.inr (Or.inl rfl), by simp⟩
    · rw [safeJoinL_dotdot_core cwd S f hplain hf hc]
      by_cases hS : S = []
      · rw [if_pos hS]
        exact ⟨fun h => absurd h hf, Or.inr (Or.inl rfl), by simp⟩
      · rw [if_neg hS]
        exact ⟨fun h => absurd h hf, Or.inl rfl, fun _ => Or.inr hc⟩
    · rw [safeJoinL_plain_core cwd S f _ hplain hf rfl hc]
      exact ⟨fun h => absurd h hf, Or.inr (Or.inr ⟨_, hc, rfl⟩), by simp⟩

/-- Only the empty segment list canonicalizes to the root path. -/
theorem canonAbs_eq_root (S : List (List Char)) (hS : ∀ x ∈ S, PlainSeg x)
    (h : canonAbs S = ['/']) : S = [] := by
  cases S with
  | nil => rfl
  | cons s0 ss =>
    unfold canonAbs at h
    rw [if_neg (by simp)] at h
    have h' : intercalateSlash (s0 :: ss) = [] := by
      simpa using h
    exact absurd h' (intercalateSlash_ne_nil _ (by simp)
      (fun x hx => (hS x hx).1))

/-- C2 (amended): over an absolute, cleaned base directory, safeJoin is
fully characterized by the normalized name Base(Clean(name)): an empty name
fails; a name normalizing to "." or "/" yields the base directory itself; a
name normalizing to ".." fails unless the base is the root "/" (which it
then yields); any other name yields the direct child base/segment.  In
particular every success is the base directory itself or a direct child of
it (one separator-free segment below the base). -/
theorem C2_safeJoin (cwd baseDir fileName : String)
    (hb : baseDir.data.head? = some '/' ∧ goClean baseDir = baseDir) :
    safeJoin cwd baseDir fileName =
      (if fileName = "" then none
       else if goBase (goClean fileName) = "." ∨ goBase (goClean fileName) = "/"
       then some baseDir
       else if goBase (goClean fileName) = ".." then
         (if baseDir = "/" then some baseDir else none)
       else some (childPath baseDir (goBase (goClean fileName)))) ∧
    (∀ s, safeJoin cwd baseDir fileName = some s →
      s = baseDir ∨ ∃ seg : String, seg ≠ "" ∧ ¬ sContainsChar seg '/' ∧
        s = childPath baseDir seg) := by
  have hbL : CleanAbsL baseDir.data := ⟨hb.1, congrArg String.data hb.2⟩
  have hsecond : ∀ s, safeJoin cwd baseDir fileName = some s →
      s = baseDir ∨ ∃ seg : String, seg ≠ "" ∧ ¬ sContainsChar seg '/' ∧
        s = childPath baseDir seg := by
    intro s hs
    have hmain := safeJoinL_sound cwd.data baseDir.data fileName.data hbL
    have hs' : (safeJoinL cwd.data baseDir.data fileName.data).map
        (fun l => (⟨l⟩ : String)) = some s := hs
    rcases hmain.2.1 with h | h | ⟨seg, hseg, h⟩
    · rw [h] at hs'
      exact absurd hs' (by simp)
    · rw [h] at hs'
      exact Or.inl (Option.some.inj hs').symm
    · rw [h] at hs'
      refine Or.inr ⟨⟨seg⟩, ?_, ?_, ?_⟩
      · intro he
        exact hseg.1 (congrArg String.data he)
      · intro hcon
        exact hseg.2.1 (List.elem_iff.mp hcon)
      · exact (Option.some.inj hs').symm
  refine ⟨?_, hsecond⟩
  obtain ⟨S, hplain, hbase⟩ :
      ∃ S, (∀ x ∈ S, PlainSeg x) ∧ baseDir.data = canonAbs S :=
    ⟨rootStack baseDir.data, rootStack_plain baseDir.data,
      cleanAbs_canon baseDir.data hbL⟩
  by_cases hf : fileName = ""
  · have hfl : fileName.data = [] := by
      rw [hf]
    rw [if_pos hf]
    unfold safeJoin safeJoinL
    rw [if_pos hfl]
    rfl
  · have hfl : fileName.data ≠ [] := fun h => hf (congrArg String.mk h)
    rcases clean_base_cases fileName.data hfl with hc | hc | hc | hc
    · have hcs : goBase (goClean fileName) = "." := congrArg String.mk hc
      rw [if_neg hf, if_pos (Or.inl hcs)]
      unfold safeJoin
      rw [hbase, safeJoinL_dot_core cwd.data S fileName.data hplain hfl hc,
        ← hbase]
      rfl
    · have hcs : goBase (goClean fileName) = "/" := congrArg String.mk hc
      rw [if_neg hf, if_pos (Or.inr hcs)]
      unfold safeJoin
      rw [hbase, safeJoinL_slash_core cwd.data S fileName.data hplain hfl hc,
        ← hbase]
      rfl
    · have hcs : goBase (goClean fileName) = ".." := congrArg String.mk hc
      have hne1 : ¬(goBase (goClean fileName) = "." ∨
          goBase (goClean fileName) = "/") := by
        rw [hcs]
        rintro (h | h) <;> simp at h
      rw [if_neg hf, if_neg hne1, if_pos hcs]
      unfold safeJoin
      rw [hbase, safeJoinL_dotdot_core cwd.data S fileName.data hplain hfl hc]
      by_cases hS : S = []
      · subst hS
        have hroot : baseDir = "/" := congrArg String.mk hbase
        rw [if_pos rfl, if_pos hroot, hroot]
        rfl
      · have hroot : baseDir ≠ "/" := by
          intro h
          apply hS
          apply canonAbs_eq_root S hplain
          have hd : baseDir.data = ['/'] := congrArg String.data h
          rw [← hbase]
          exact hd
        rw [if_neg hS, if_neg hroot]
        rfl
    · have hcs : goBase (goClean fileName) =
          (⟨goBaseL (goCleanL fileName.data)⟩ : String) := rfl
      have hne1 : ¬(goBase (goClean fileName) = "." ∨
          goBase (goClean fileName) = "/") := by
        rintro (h | h)
        · exact hc.2.2.1 (congrArg String.data h)
        · apply hc.2.1
          have hd : goBaseL (goCleanL fileName.data) = ['/'] :=
            congrArg String.data h
          rw [hd]
          simp
      have hne2 : goBase (goClean fileName) ≠ ".." := fun h =>
        hc.2.2.2 (congrArg String.data h)
      rw [if_neg hf, if_neg hne1, if_neg hne2]
      unfold safeJoin
      rw [hbase, safeJoinL_plain_core cwd.data S fileName.data _ hplain hfl
        rfl hc, ← hbase]
      rfl

/-- Witness for C2 (amended): the characterization at a concrete plain
name, which evaluates to the direct child /photos/x.jpg. -/
theorem C2_safeJoin_witness :
    (safeJoin "/" "/photos" "x.jpg" =
      (if ("x.jpg" : String) = "" then none
       else if goBase (goClean "x.jpg") = "." ∨ goBase (goClean "x.jpg") = "/"
       then some "/photos"
       else if goBase (goClean "x.jpg") = ".." then
         (if ("/photos" : String) = "/" then some "/photos" else none)
       else some (childPath "/photos" (goBase (goClean "x.jpg"))))) ∧
    safeJoin "/" "/photos" "x.jpg" = some "/photos/x.jpg" := by
  constructor
  · exact (C2_safeJoin "/" "/photos" "x.jpg" ⟨rfl, rfl⟩).1
  · rfl

/-- Counterexample to C2 as stated: the name "." makes safeJoin succeed
with the base directory itself, which is not a direct child of the base. -/
theorem C2_counterexample :
    safeJoin "/" "/photos" "." = some "/photos" ∧
    ¬∃ seg : String, seg ≠ "" ∧ ¬ sContainsChar seg '/' ∧
      ("/photos" : String) = childPath "/photos" seg := by
  constructor
  · rfl
  · rintro ⟨seg, -, -, he⟩
    have hlen := congrArg (fun s : String => s.data.length) he
    simp [childPath, childPathL] at hlen

/-! ### Photo scanning -/

theorem goCleanL_plain (seg : List Char) (h : PlainSeg seg) :
    goCleanL seg = seg := by
  have hr : ¬(seg.head? = some '/') := by
    cases seg with
    | nil => simp
    | cons c cs =>
      simp only [List.head?]
      intro he
      have hce : c = '/' := by injection he
      exact h.2.1 (by rw [← hce]; exact List.mem_cons_self _ _)
  unfold goCleanL
  rw [if_neg h.1]
  dsimp only
  rw [decide_eq_false hr, splitOnSlash_no_slash seg h.2.1]
  unfold cleanStack
  rw [List.foldl_cons, cleanStep_plain false [] seg h, List.foldl_nil]
  simp
  rfl

theorem goBaseL_plain (seg : List Char) (h : PlainSeg seg) :
    goBaseL seg = seg := by
  unfold goBaseL
  rw [if_neg h.1, splitOnSlash_no_slash seg h.2.1]
  have hfil : ([seg] : List (List Char)).filter (fun s => !s.isEmpty) =
      [seg] := by
    apply List.filter_eq_self.mpr
    intro a ha
    rw [List.mem_singleton.mp ha]
    simpa [List.isEmpty_iff] using h.1
  rw [hfil]
  rfl

theorem safeJoin_plain_name (cwd dir name : String)
    (hb : CleanAbsL dir.data) (hp : PlainSeg name.data) :
    safeJoin cwd dir name = some (childPath dir name) := by
  unfold safeJoin
  obtain ⟨S, hplain, hbase⟩ :
      ∃ S, (∀ x ∈ S, PlainSeg x) ∧ dir.data = canonAbs S :=
    ⟨rootStack dir.data, rootStack_plain dir.data, cleanAbs_canon dir.data hb⟩
  unfold childPath
  rw [hbase]
  rw [safeJoinL_plain_core cwd.data S name.data name.data hplain hp.1
    (by rw [goCleanL_plain _ hp, goBaseL_plain _ hp]) hp]
  rfl

theorem scanLoop_filterMap (w : World) (cwd dir : String)
    (hb : CleanAbsL dir.data) :
    ∀ entries : List DirEntry, (∀ e ∈ entries, PlainSeg e.name.data) →
      scanLoop w cwd dir entries = entries.filterMap (scanSpec w dir) := by
  intro entries
  induction entries with
  | nil => intro _; rfl
  | cons e rest ih =>
    intro hall
    have he := hall e (List.mem_cons_self _ _)
    have hrest := fun x hx => hall x (List.mem_cons_of_mem _ hx)
    rw [List.filterMap_cons]
    unfold scanSpec scanLoop
    by_cases hd : e.isDir = true
    · rw [if_pos hd, if_pos hd]
      exact ih hrest
    · rw [if_neg hd, if_neg hd]
      by_cases hx : isAllowedExt e.name = true
      · rw [if_neg (fun hn => hn hx), if_neg (fun hn => hn hx)]
        rw [safeJoin_plain_name cwd dir e.name hb he]
        dsimp only
        cases hstat : w.stat (childPath dir e.name) with
        | none =>
          dsimp only
          exact ih hrest
        | some fi =>
          dsimp only
          by_cases hfd : fi.isDir = true
          · rw [if_pos hfd, if_pos hfd]
            exact ih hrest
          · rw [if_neg hfd, if_neg hfd, ih hrest]
            rfl
      · rw [if_pos hx, if_pos hx]
        exact ih hrest

/-- C5: for every readable directory, the scan yields exactly one entry per
non-directory child with an allowed (lowercased) extension that can still
be stat'ed as a regular file, with size, mtime and URL built from the stat
data; subdirectories, disallowed extensions, vanished files and files that
became directories are silently skipped; the scan fails exactly when the
directory listing itself fails. -/
theorem C5_scanPhotos (w : World) (cwd dir : String)
    (hdir : dir.data.head? = some '/' ∧ goClean dir = dir) :
    (scanPhotos w cwd dir = none ↔ w.readDir dir = none) ∧
    (∀ entries, w.readDir dir = some entries →
      (∀ e ∈ entries, PlainSeg e.name.data) →
      scanPhotos w cwd dir = some (entries.filterMap (scanSpec w dir))) := by
  have hb : CleanAbsL dir.data := ⟨hdir.1, congrArg String.data hdir.2⟩
  constructor
  · unfold scanPhotos
    cases hr : w.readDir dir with
    | none => simp
    | some entries => simp
  · intro entries hr hall
    unfold scanPhotos
    rw [hr]
    dsimp only [Option.map]
    rw [scanLoop_filterMap w cwd dir hb entries hall]

/-- Witness for C5: a concrete directory with two images, a text file, a
vanished image and a subdirectory. -/
theorem C5_scanPhotos_witness :
    scanPhotos sampleWorld "/" "/photos" =
      some ([⟨"b.png", false⟩, ⟨"a.jpg", false⟩, ⟨"c.txt", false⟩,
        ⟨"gone.gif", false⟩, ⟨"sub", true⟩].filterMap
          (scanSpec sampleWorld "/photos")) :=
  (C5_scanPhotos sampleWorld "/" "/photos" ⟨rfl, rfl⟩).2 _ rfl (by decide)

end Frameserve
